import Mathlib

/-!
# sptr: self-describing sized blocks

A shallow embedding of `sptr_legacy.c`.  A *sptr* is a pointer to the payload of
an allocation that starts with two `size_t` header words (item count, item size),
a sentinel byte `1`, and zero padding up to the payload.

Modelling conventions.

* `W` is `sizeof(size_t)` in bytes; it is defined by the platform, not by the
  repository, and is a parameter of every definition.  A `size_t` value is a
  natural number below `sizeRange W = 2 ^ (8 * W)`, and every `size_t`
  operation of the source is reduced modulo `sizeRange W`.
* Memory is a flat byte map `Nat → Nat` (address to byte value); the null
  pointer is address `0`.  Words are stored little-endian.
* The C library allocator (`malloc`, `calloc`, `realloc`, `free`) is external
  to the repository.  Its freedom (fail or succeed, where the block is placed,
  what the fresh bytes contain) is an explicit `HostChoice` argument.
* Functions return `Option`; `none` stands for undefined behaviour of the C
  program (division by zero, a backward scan that leaves the address space,
  `realloc`/`free` of a pointer that is not a live allocation).
-/

namespace Sptr

/-! ## Machine words and memory -/

/-- Number of values of `size_t` when `sizeof(size_t) = W`, that is `SIZE_MAX + 1`. -/
def sizeRange (W : Nat) : Nat := 2 ^ (8 * W)

/-- The heap: the byte stored at each address, and the table of live host
allocations (start address to allocated size). -/
structure Heap where
  mem : Nat → Nat
  live : Nat → Option Nat

/-- What the host allocator decides in one call: the address of the block it
returns (`0` when it fails) and the indeterminate contents of fresh bytes. -/
structure HostChoice where
  addr : Nat
  junk : Nat → Nat

/-- Store one byte: `p[0] = v` for a `char* p` at address `a`. -/
def storeByte (m : Nat → Nat) (a v : Nat) : Nat → Nat :=
  fun x => if x = a then v % 256 else m x

/-- Store a `size_t` at address `a` (little-endian, `W` bytes). -/
def storeWord (W : Nat) (m : Nat → Nat) (a v : Nat) : Nat → Nat :=
  fun x => if a ≤ x ∧ x < a + W then (v / 256 ^ (x - a)) % 256 else m x

/-- Load `k` bytes at address `a` as a little-endian number. -/
def loadWord (m : Nat → Nat) : Nat → Nat → Nat
  | _, 0 => 0
  | a, k + 1 => m a % 256 + 256 * loadWord m (a + 1) k

/-- The library routine `memmove(dst, src, n)`: the `n` bytes at `src` are copied to `dst`,
as if through a temporary buffer. -/
def memmove (m : Nat → Nat) (dst src n : Nat) : Nat → Nat :=
  fun x => if dst ≤ x ∧ x < dst + n then m (src + (x - dst)) else m x

/-! ## The host allocator -/

/-- Host `malloc(n)`: fails (returns `0`, heap untouched) or returns a fresh block of `n`
indeterminate bytes. -/
def malloc (H : Heap) (n : Nat) (c : HostChoice) : Nat × Heap :=
  if c.addr = 0 then (0, H)
  else (c.addr,
    { mem := fun x => if c.addr ≤ x ∧ x < c.addr + n then c.junk (x - c.addr) % 256 else H.mem x,
      live := fun b => if b = c.addr then some n else H.live b })

/-- Host `calloc(n, 1)`: fails or returns a fresh block of `n` zero bytes. -/
def calloc (H : Heap) (n : Nat) (c : HostChoice) : Nat × Heap :=
  if c.addr = 0 then (0, H)
  else (c.addr,
    { mem := fun x => if c.addr ≤ x ∧ x < c.addr + n then 0 else H.mem x,
      live := fun b => if b = c.addr then some n else H.live b })

/-- Host `realloc(p, n)`.  With `p = NULL` it is `malloc(n)`.  Otherwise `p` must be a live
allocation; on failure the heap is untouched, on success the old block is released and the new
one holds the first `min old n` bytes of the old one followed by indeterminate bytes. -/
def realloc (H : Heap) (p n : Nat) (c : HostChoice) : Option (Nat × Heap) :=
  if p = 0 then some (malloc H n c)
  else
    match H.live p with
    | none => none
    | some old =>
      if c.addr = 0 then some (0, H)
      else some (c.addr,
        { mem := fun x =>
            if c.addr ≤ x ∧ x < c.addr + n then
              (if x - c.addr < old then H.mem (p + (x - c.addr)) else c.junk (x - c.addr) % 256)
            else H.mem x,
          live := fun b => if b = c.addr then some n else if b = p then none else H.live b })

/-- Host `free(p)`: nothing for `NULL`, otherwise `p` must be live and is released. -/
def free (H : Heap) (p : Nat) : Option Heap :=
  if p = 0 then some H
  else
    match H.live p with
    | none => none
    | some _ => some { H with live := fun b => if b = p then none else H.live b }

/-! ## Utility functions of `sptr_legacy.c` -/

/-- The macro `_sptr_min_pad`: `2 * sizeof(size_t) + 1`, computed in `size_t`. -/
def _sptr_min_pad (W : Nat) : Nat := (2 * W + 1) % sizeRange W

def _SPTR_LENGTH_INDEX : Nat := 0

def _SPTR_SIZE_INDEX : Nat := 1

/-- The function `_sptr_multiply_overflow_check(a, b, &result)`: the returned flag and the
value left in `result`. -/
def _sptr_multiply_overflow_check (W a b : Nat) : Bool × Nat :=
  if a = 0 then (false, 0)
  else (decide ((a * b) % sizeRange W / a ≠ b), (a * b) % sizeRange W)

/-- The function `_sptr_addition_overflow_check(a, b, &result)`. -/
def _sptr_addition_overflow_check (W a b : Nat) : Bool × Nat :=
  (decide ((a + b) % sizeRange W < (if a < b then a else b)), (a + b) % sizeRange W)

/-- The function `_sptr_subtraction_underflow_check(a, b, &result)`; `a - b` wraps around. -/
def _sptr_subtraction_underflow_check (W a b : Nat) : Bool × Nat :=
  (decide (a < b), (a + sizeRange W - b) % sizeRange W)

/-- The function `_sptr_get_pad(size)`.  `size = 0` divides by zero. -/
def _sptr_get_pad (W size : Nat) : Option Nat :=
  if size = 0 then none
  else some ((_sptr_min_pad W +
    (if _sptr_min_pad W % size ≠ 0
      then (size + sizeRange W - _sptr_min_pad W % size) % sizeRange W
      else 0)) % sizeRange W)

/-- The loop `while (!*--as_char);` started at address `a`: the address of the first nonzero
byte strictly below `a`, or `none` when the scan falls off address `0`. -/
def scanBack (m : Nat → Nat) : Nat → Option Nat
  | 0 => none
  | a + 1 => if m a ≠ 0 then some a else scanBack m a

/-- The function `_get_sptr_meta(sptr)`. -/
def _get_sptr_meta (W : Nat) (H : Heap) (sptr : Nat) : Option Nat :=
  if sptr = 0 then some 0
  else
    match scanBack H.mem sptr with
    | none => none
    | some as_char =>
      if as_char + 1 < _sptr_min_pad W then none
      else some (as_char + 1 - _sptr_min_pad W)

/-- The loop `for (i = _sptr_min_pad; i < pad; i++) sptr[i] = 0;`, from index `i`,
with at most `fuel` iterations. -/
def zeroLoop (sptr pad : Nat) : Nat → Nat → (Nat → Nat) → (Nat → Nat)
  | 0, _, m => m
  | fuel + 1, i, m =>
    if i < pad then zeroLoop sptr pad fuel (i + 1) (storeByte m (sptr + i) 0) else m

/-! ## The public operations -/

/-- The function `malloc_sptr(nitems, size)` run on heap `H` with host decision `c`:
the returned pointer and the heap afterwards. -/
def malloc_sptr (W : Nat) (H : Heap) (nitems size : Nat) (c : HostChoice) :
    Option (Nat × Heap) :=
  match _sptr_get_pad W size with
  | none => none
  | some pad =>
    let r1 := _sptr_multiply_overflow_check W nitems size
    if r1.1 then some (0, H)
    else
      let r2 := _sptr_addition_overflow_check W r1.2 pad
      if r2.1 then some (0, H)
      else
        let a := malloc H r2.2 c
        if a.1 = 0 then some (0, a.2)
        else
          let m1 := storeWord W a.2.mem (a.1 + W * _SPTR_LENGTH_INDEX) nitems
          let m2 := storeWord W m1 (a.1 + W * _SPTR_SIZE_INDEX) size
          let m3 := storeByte m2 (a.1 + (_sptr_min_pad W - 1)) 1
          let m4 := zeroLoop a.1 pad pad (_sptr_min_pad W) m3
          some (a.1 + pad, { a.2 with mem := m4 })

/-- The function `calloc_sptr(nitems, size)`. -/
def calloc_sptr (W : Nat) (H : Heap) (nitems size : Nat) (c : HostChoice) :
    Option (Nat × Heap) :=
  match _sptr_get_pad W size with
  | none => none
  | some pad =>
    let r1 := _sptr_multiply_overflow_check W nitems size
    if r1.1 then some (0, H)
    else
      let r2 := _sptr_addition_overflow_check W r1.2 pad
      if r2.1 then some (0, H)
      else
        let a := calloc H r2.2 c
        if a.1 = 0 then some (0, a.2)
        else
          let m1 := storeWord W a.2.mem (a.1 + W * _SPTR_LENGTH_INDEX) nitems
          let m2 := storeWord W m1 (a.1 + W * _SPTR_SIZE_INDEX) size
          let m3 := storeByte m2 (a.1 + (_sptr_min_pad W - 1)) 1
          some (a.1 + pad, { a.2 with mem := m3 })

/-- The function `make_sptr(ptr, nitems, size)`. -/
def make_sptr (W : Nat) (H : Heap) (ptr nitems size : Nat) (c : HostChoice) :
    Option (Nat × Heap) :=
  match _sptr_get_pad W size with
  | none => none
  | some pad =>
    let r1 := _sptr_multiply_overflow_check W nitems size
    if r1.1 then some (0, H)
    else
      let r2 := _sptr_addition_overflow_check W r1.2 pad
      if r2.1 then some (0, H)
      else
        match realloc H ptr r2.2 c with
        | none => none
        | some a =>
          if a.1 = 0 then some (0, a.2)
          else
            let m0 := memmove a.2.mem (a.1 + pad) a.1 size
            let m1 := storeWord W m0 (a.1 + W * _SPTR_LENGTH_INDEX) nitems
            let m2 := storeWord W m1 (a.1 + W * _SPTR_SIZE_INDEX) size
            let m3 := storeByte m2 (a.1 + (_sptr_min_pad W - 1)) 1
            let m4 := zeroLoop a.1 pad pad (_sptr_min_pad W) m3
            some (a.1 + pad, { a.2 with mem := m4 })

/-- The function `sptr_size(sptr)`. -/
def sptr_size (W : Nat) (H : Heap) (sptr : Nat) : Option Nat :=
  if sptr = 0 then some 0
  else
    match _get_sptr_meta W H sptr with
    | none => none
    | some meta =>
      let r := _sptr_multiply_overflow_check W
        (loadWord H.mem (meta + W * _SPTR_LENGTH_INDEX) W)
        (loadWord H.mem (meta + W * _SPTR_SIZE_INDEX) W)
      if r.1 then some 0 else some r.2

/-- The function `sptr_item_size(sptr)`. -/
def sptr_item_size (W : Nat) (H : Heap) (sptr : Nat) : Option Nat :=
  if sptr = 0 then some 0
  else
    match _get_sptr_meta W H sptr with
    | none => none
    | some meta => some (loadWord H.mem (meta + W * _SPTR_SIZE_INDEX) W)

/-- The function `sptr_length(sptr)`. -/
def sptr_length (W : Nat) (H : Heap) (sptr : Nat) : Option Nat :=
  if sptr = 0 then some 0
  else
    match _get_sptr_meta W H sptr with
    | none => none
    | some meta => some (loadWord H.mem (meta + W * _SPTR_LENGTH_INDEX) W)

/-- The function `make_ptr(sptr)`. -/
def make_ptr (W : Nat) (H : Heap) (sptr : Nat) (c : HostChoice) : Option (Nat × Heap) :=
  if sptr = 0 then some (0, H)
  else
    match sptr_size W H sptr with
    | none => none
    | some size =>
      match _get_sptr_meta W H sptr with
      | none => none
      | some meta =>
        let H1 : Heap := { H with mem := memmove H.mem sptr meta size }
        match realloc H1 meta size c with
        | none => none
        | some a => if a.1 = 0 then some (meta, a.2) else some (a.1, a.2)

/-- The function `free_sptr(sptr)`. -/
def free_sptr (W : Nat) (H : Heap) (sptr : Nat) : Option Heap :=
  match _get_sptr_meta W H sptr with
  | none => none
  | some meta => free H meta

/-- The function `realloc_sptr(sptr, nitems)`. -/
def realloc_sptr (W : Nat) (H : Heap) (sptr nitems : Nat) (c : HostChoice) :
    Option (Nat × Heap) :=
  if sptr = 0 then some (0, H)
  else
    match _get_sptr_meta W H sptr with
    | none => none
    | some meta =>
      let pad := (sptr - meta) % sizeRange W
      let r1 := _sptr_multiply_overflow_check W nitems
        (loadWord H.mem (meta + W * _SPTR_SIZE_INDEX) W)
      if r1.1 then some (0, H)
      else
        let r2 := _sptr_addition_overflow_check W r1.2 pad
        if r2.1 then some (0, H)
        else
          match realloc H meta r2.2 c with
          | none => none
          | some a =>
            if a.1 = 0 then some (0, a.2)
            else
              some (a.1 + pad,
                { a.2 with mem := storeWord W a.2.mem (a.1 + W * _SPTR_LENGTH_INDEX) nitems })

/-- The function `add_realloc_sptr(sptr, additional_items)`. -/
def add_realloc_sptr (W : Nat) (H : Heap) (sptr additional_items : Nat) (c : HostChoice) :
    Option (Nat × Heap) :=
  if sptr = 0 then some (0, H)
  else
    match _get_sptr_meta W H sptr with
    | none => none
    | some meta =>
      let pad := (sptr - meta) % sizeRange W
      let r0 := _sptr_addition_overflow_check W
        (loadWord H.mem (meta + W * _SPTR_LENGTH_INDEX) W) additional_items
      let new_length := if r0.1 then sizeRange W - 1 else r0.2
      let r1 := _sptr_multiply_overflow_check W new_length
        (loadWord H.mem (meta + W * _SPTR_SIZE_INDEX) W)
      if r1.1 then some (0, H)
      else
        let r2 := _sptr_addition_overflow_check W r1.2 pad
        if r2.1 then some (0, H)
        else
          match realloc H meta r2.2 c with
          | none => none
          | some a =>
            if a.1 = 0 then some (0, a.2)
            else
              some (a.1 + pad,
                { a.2 with
                  mem := storeWord W a.2.mem (a.1 + W * _SPTR_LENGTH_INDEX) new_length })

/-- The function `subtract_realloc_sptr(sptr, removed_items)`. -/
def subtract_realloc_sptr (W : Nat) (H : Heap) (sptr removed_items : Nat) (c : HostChoice) :
    Option (Nat × Heap) :=
  if sptr = 0 then some (0, H)
  else
    match _get_sptr_meta W H sptr with
    | none => none
    | some meta =>
      let pad := (sptr - meta) % sizeRange W
      let r0 := _sptr_subtraction_underflow_check W
        (loadWord H.mem (meta + W * _SPTR_LENGTH_INDEX) W) removed_items
      let new_length := if r0.1 then 0 else r0.2
      let r1 := _sptr_multiply_overflow_check W new_length
        (loadWord H.mem (meta + W * _SPTR_SIZE_INDEX) W)
      if r1.1 then some (0, H)
      else
        let r2 := _sptr_addition_overflow_check W r1.2 pad
        if r2.1 then some (0, H)
        else
          match realloc H meta r2.2 c with
          | none => none
          | some a =>
            if a.1 = 0 then some (0, a.2)
            else
              let m1 := storeWord W a.2.mem (a.1 + W * _SPTR_LENGTH_INDEX) new_length
              let m2 := storeWord W m1 (a.1 + W * _SPTR_LENGTH_INDEX) new_length
              some (a.1 + pad, { a.2 with mem := m2 })

/-- The function `resize_sptr(sptr, new_size)`.  No path writes the header words. -/
def resize_sptr (W : Nat) (H : Heap) (sptr new_size : Nat) (c : HostChoice) :
    Option (Nat × Heap) :=
  if new_size = 0 then
    match free_sptr W H sptr with
    | none => none
    | some H1 => some (0, H1)
  else if sptr = 0 then malloc_sptr W H 0 new_size c
  else
    match _get_sptr_meta W H sptr with
    | none => none
    | some meta =>
      let r := _sptr_multiply_overflow_check W
        (loadWord H.mem (meta + W * _SPTR_LENGTH_INDEX) W)
        (loadWord H.mem (meta + W * _SPTR_SIZE_INDEX) W)
      if r.1 then some (0, H)
      else
        let new_length := r.2 / new_size
        let old_pad := (sptr - meta) % sizeRange W
        match _sptr_get_pad W new_size with
        | none => none
        | some new_pad =>
          if old_pad < new_pad then
            let overall_size := (new_length * new_size) % sizeRange W
            let r2 := _sptr_addition_overflow_check W overall_size new_pad
            if !r2.1 then
              match realloc H meta r2.2 c with
              | none => none
              | some a =>
                if a.1 ≠ 0 then
                  some (a.1 + new_pad,
                    { a.2 with
                      mem := memmove a.2.mem (a.1 + new_size) (a.1 + new_pad) overall_size })
                else some (sptr, a.2)
            else some (sptr, H)
          else if old_pad > new_pad then
            let overall_size := (new_length * new_size) % sizeRange W
            let H1 : Heap := { H with mem := memmove H.mem (meta + new_pad) sptr overall_size }
            let r2 := _sptr_addition_overflow_check W overall_size new_pad
            if !r2.1 then
              match realloc H1 meta r2.2 c with
              | none => none
              | some a =>
                if a.1 = 0 then some (sptr + new_pad, a.2)
                else some (a.1 + new_size, a.2)
            else some (sptr, H1)
          else some (sptr, H)

/-- The function `sptr_multiply_allocation(sptr, multiplier)`.  The `double` multiplier is
represented by its value, a rational number (no NaN, no infinity).  The floating-point
arithmetic of the general branch depends on the platform and is the parameter `fscale`:
`fscale length multiplier` is `none` when the test
`((size_t) (length * multiplier)) / multiplier != length` fires and otherwise the value that
`length *= multiplier` leaves in `length`. -/
def sptr_multiply_allocation (W : Nat) (fscale : Nat → ℚ → Option Nat) (H : Heap)
    (sptr : Nat) (multiplier : ℚ) (c : HostChoice) : Option (Nat × Heap) :=
  if sptr = 0 ∨ multiplier < 0 then some (0, H)
  else if multiplier = 1 then some (sptr, H)
  else
    match _get_sptr_meta W H sptr with
    | none => none
    | some meta =>
      let pad := (sptr - meta) % sizeRange W
      let scaled : Option Nat :=
        if multiplier ≠ 0 then
          fscale (loadWord H.mem (meta + W * _SPTR_LENGTH_INDEX) W) multiplier
        else some 0
      match scaled with
      | none => some (0, H)
      | some length =>
        let r1 := _sptr_multiply_overflow_check W
          (loadWord H.mem (meta + W * _SPTR_SIZE_INDEX) W) length
        if r1.1 then some (0, H)
        else
          let r2 := _sptr_addition_overflow_check W r1.2 pad
          if r2.1 then some (0, H)
          else
            match realloc H meta r2.2 c with
            | none => none
            | some a =>
              if a.1 = 0 then some (0, a.2)
              else
                some (a.1 + pad,
                  { a.2 with
                    mem := storeWord W a.2.mem (a.1 + W * _SPTR_LENGTH_INDEX) length })

/-- The function `sptr_end(sptr)`. -/
def sptr_end (W : Nat) (H : Heap) (sptr : Nat) : Option Nat :=
  if sptr = 0 then some 0
  else
    match sptr_size W H sptr with
    | none => none
    | some size => some (sptr + size)

/-- The function `in_sptr(sptr, other)`; `&&` evaluates `sptr_end` only when
`sptr <= other`. -/
def in_sptr (W : Nat) (H : Heap) (sptr other : Nat) : Option Bool :=
  if sptr = 0 then some (decide (other = 0))
  else if sptr ≤ other then
    match sptr_end W H sptr with
    | none => none
    | some e => some (decide (other < e))
  else some false

/-! ## Live blocks -/

/-- A live block: a host allocation of `asz` bytes at `base` laid out as a sptr of `n` items of
`s` bytes with a pad of `pad` bytes.  The header words hold `n` and `s`, the sentinel byte at
offset `2 * W` is `1`, the bytes after it up to the payload are `0`, and the payload of `n * s`
bytes lies inside the allocation.  The handle of the block is `base + pad`. -/
def ValidBlock (W : Nat) (H : Heap) (base n s pad asz : Nat) : Prop :=
  base ≠ 0 ∧ 2 * W + 1 ≤ pad ∧ H.live base = some asz ∧ n * s + pad ≤ asz ∧
  asz < sizeRange W ∧
  loadWord H.mem base W = n ∧ loadWord H.mem (base + W) W = s ∧
  H.mem (base + 2 * W) = 1 ∧ ∀ i < pad, 2 * W + 1 ≤ i → H.mem (base + i) = 0

instance (W : Nat) (H : Heap) (base n s pad asz : Nat) :
    Decidable (ValidBlock W H base n s pad asz) := by
  unfold ValidBlock; infer_instance

/-- An empty heap: every byte `0`, nothing allocated. -/
def emptyHeap : Heap := { mem := fun _ => 0, live := fun _ => none }

/-- A heap with one live sptr on a 64-bit platform: an allocation of 19 bytes at address 4096
holding 2 items of 1 byte, pad 17, payload bytes `7, 9` at the handle 4113. -/
def demoHeap : Heap :=
  { mem := fun x =>
      if x = 4096 then 2 else if x = 4104 then 1 else if x = 4112 then 1
      else if x = 4113 then 7 else if x = 4114 then 9 else 0,
    live := fun b => if b = 4096 then some 19 else none }

/-- A heap with one raw (headerless) allocation of 2 bytes `7, 9` at address 4096. -/
def rawHeap : Heap :=
  { mem := fun x => if x = 4096 then 7 else if x = 4097 then 9 else 0,
    live := fun b => if b = 4096 then some 2 else none }

/-- A heap with one live sptr on a 64-bit platform: an allocation of 28 bytes at address 4096
holding 2 items of 4 bytes, pad 20, payload bytes `11, 12, ..., 18` at the handle 4116. -/
def demoHeap4 : Heap :=
  { mem := fun x =>
      if x = 4096 then 2 else if x = 4104 then 4 else if x = 4112 then 1
      else if 4116 ≤ x ∧ x < 4124 then x - 4105 else 0,
    live := fun b => if b = 4096 then some 28 else none }

/-- Invariant I1 for the allocation at `base` with a pad of `pad` bytes: the sentinel byte at
offset `2 * W` is `1` and the bytes after it up to the payload are `0`. -/
def PadInvariant (W : Nat) (H : Heap) (base pad : Nat) : Prop :=
  2 * W + 1 ≤ pad ∧ H.mem (base + 2 * W) = 1 ∧
  ∀ i < pad, 2 * W + 1 ≤ i → H.mem (base + i) = 0

instance (W : Nat) (H : Heap) (base pad : Nat) : Decidable (PadInvariant W H base pad) := by
  unfold PadInvariant; infer_instance

/-- The handle `r` lies `pad` bytes into a live allocation that satisfies invariant I1, and
the backward scan from `r` returns the start of that allocation on every heap that has the same
bytes from the sentinel up to the payload. -/
def MetaLocated (W : Nat) (H : Heap) (r pad : Nat) : Prop :=
  ∃ base asz, r = base + pad ∧ H.live base = some asz ∧ pad ≤ asz ∧
    PadInvariant W H base pad ∧
    ∀ H2 : Heap, (∀ x, base + 2 * W ≤ x → x < base + pad → H2.mem x = H.mem x) →
      _get_sptr_meta W H2 r = some base

/-- One call of a consuming reallocation on a handle. -/
inductive Call where
  | realloc (nitems : Nat) (c : HostChoice)
  | add (additional_items : Nat) (c : HostChoice)
  | subtract (removed_items : Nat) (c : HostChoice)

/-- The `size_t` argument of a call. -/
def Call.arg : Call → Nat
  | Call.realloc nitems _ => nitems
  | Call.add additional_items _ => additional_items
  | Call.subtract removed_items _ => removed_items

/-- Run one call on the handle `sptr`. -/
def runCall (W : Nat) (H : Heap) (sptr : Nat) : Call → Option (Nat × Heap)
  | Call.realloc nitems c => realloc_sptr W H sptr nitems c
  | Call.add additional_items c => add_realloc_sptr W H sptr additional_items c
  | Call.subtract removed_items c => subtract_realloc_sptr W H sptr removed_items c

/-- Run a sequence of calls, each on the handle returned by the previous one; the result is
`some` only if every call returned a non-null handle. -/
def runCalls (W : Nat) : Nat × Heap → List Call → Option (Nat × Heap)
  | st, [] => some st
  | st, call :: rest =>
    match runCall W st.2 st.1 call with
    | none => none
    | some st1 => if st1.1 = 0 then none else runCalls W st1 rest

/-! ## Arithmetic of the checked helpers -/

theorem sizeRange_pos (W : Nat) : 0 < sizeRange W := by
  unfold sizeRange; positivity

theorem sizeRange_ge (W : Nat) : 16 * W ≤ sizeRange W := by
  unfold sizeRange
  induction W with
  | zero => simp
  | succ k ih =>
    have h1 : 0 < 2 ^ (8 * k) := by positivity
    have h2 : 2 ^ (8 * (k + 1)) = 256 * 2 ^ (8 * k) := by
      rw [Nat.mul_add, Nat.pow_add]; norm_num; ring
    omega

theorem sizeRange_eq (W : Nat) : sizeRange W = 256 ^ W := by
  unfold sizeRange
  rw [Nat.pow_mul]

theorem min_pad_eq (W : Nat) (hW : 0 < W) : _sptr_min_pad W = 2 * W + 1 := by
  unfold _sptr_min_pad
  have := sizeRange_ge W
  exact Nat.mod_eq_of_lt (by omega)

theorem mul_check_ok (W a b : Nat) (h : a * b < sizeRange W) :
    _sptr_multiply_overflow_check W a b = (false, a * b) := by
  unfold _sptr_multiply_overflow_check
  by_cases ha : a = 0
  · simp [ha]
  · have hpos : 0 < a := Nat.pos_of_ne_zero ha
    simp [ha, Nat.mod_eq_of_lt h, Nat.mul_div_cancel_left b hpos]

theorem mul_check_overflow (W a b : Nat) (h : sizeRange W ≤ a * b) :
    (_sptr_multiply_overflow_check W a b).1 = true := by
  unfold _sptr_multiply_overflow_check
  have hM := sizeRange_pos W
  by_cases ha : a = 0
  · subst ha; simp at h; omega
  · simp only [ha, if_false, decide_eq_true_eq]
    intro hc
    have h1 : (a * b) % sizeRange W < sizeRange W := Nat.mod_lt _ hM
    have h2 := Nat.div_mul_le_self ((a * b) % sizeRange W) a
    rw [hc, Nat.mul_comm] at h2
    omega

theorem add_check_ok (W a b : Nat) (h : a + b < sizeRange W) :
    _sptr_addition_overflow_check W a b = (false, a + b) := by
  unfold _sptr_addition_overflow_check
  rw [Nat.mod_eq_of_lt h]
  simp only [Prod.mk.injEq, decide_eq_false_iff_not, and_true]
  split <;> omega

theorem add_check_overflow (W a b : Nat) (ha : a < sizeRange W) (hb : b < sizeRange W)
    (h : sizeRange W ≤ a + b) : (_sptr_addition_overflow_check W a b).1 = true := by
  unfold _sptr_addition_overflow_check
  have h1 : (a + b) % sizeRange W = a + b - sizeRange W := by
    rw [Nat.mod_eq_sub_mod h]; exact Nat.mod_eq_of_lt (by omega)
  rw [h1]
  simp only [decide_eq_true_eq]
  split <;> omega

/-! ## The pad length -/

/-- Pad in exact arithmetic. -/
theorem get_pad_eq (W size : Nat) (hW : 0 < W) (h1 : 1 ≤ size) (h2 : size < sizeRange W) :
    _sptr_get_pad W size = some (2 * W + 1 +
      (if (2 * W + 1) % size ≠ 0 then size - (2 * W + 1) % size else 0)) ∧
    2 * W + 1 + (if (2 * W + 1) % size ≠ 0 then size - (2 * W + 1) % size else 0)
      < sizeRange W := by
  have hM := sizeRange_ge W
  have hr : (2 * W + 1) % size < size := Nat.mod_lt _ (by omega)
  have hr2 : (2 * W + 1) % size ≤ 2 * W + 1 := Nat.mod_le _ _
  have hbig : 2 * W + 1 < size → (2 * W + 1) % size = 2 * W + 1 := fun h => Nat.mod_eq_of_lt h
  unfold _sptr_get_pad
  rw [min_pad_eq W hW, if_neg (by omega)]
  by_cases hz : (2 * W + 1) % size = 0
  · simp only [hz, ne_eq, not_true_eq_false, if_false, Nat.add_zero]
    refine ⟨?_, by omega⟩
    rw [Nat.mod_eq_of_lt (by omega)]
  · simp only [ne_eq, hz, not_false_eq_true, if_true]
    have e1 : (size + sizeRange W - (2 * W + 1) % size) % sizeRange W
        = size - (2 * W + 1) % size := by
      have : size + sizeRange W - (2 * W + 1) % size
          = (size - (2 * W + 1) % size) + sizeRange W := by omega
      rw [this, Nat.add_mod_right]
      exact Nat.mod_eq_of_lt (by omega)
    rw [e1]
    have hlt : 2 * W + 1 + (size - (2 * W + 1) % size) < sizeRange W := by
      by_cases hc : 2 * W + 1 < size
      · have := hbig hc; omega
      · omega
    exact ⟨by rw [Nat.mod_eq_of_lt hlt], hlt⟩

theorem pad_props (W size : Nat) (h1 : 1 ≤ size) :
    let p := 2 * W + 1 + (if (2 * W + 1) % size ≠ 0 then size - (2 * W + 1) % size else 0)
    2 * W + 1 ≤ p ∧ p % size = 0 ∧ p < 2 * W + 1 + size ∧
      ∀ q, 2 * W + 1 ≤ q → q % size = 0 → p ≤ q := by
  intro p
  have hr : (2 * W + 1) % size < size := Nat.mod_lt _ (by omega)
  have hdm : size * ((2 * W + 1) / size) + (2 * W + 1) % size = 2 * W + 1 :=
    Nat.div_add_mod _ _
  have hp0 : p % size = 0 := by
    by_cases hz : (2 * W + 1) % size = 0
    · have : p = 2 * W + 1 := by simp [p, hz]
      rw [this]; exact hz
    · have : p = size * ((2 * W + 1) / size + 1) := by
        simp only [p, ne_eq, hz, not_false_eq_true, if_true]
        rw [Nat.mul_succ]; omega
      rw [this]; exact Nat.mul_mod_right _ _
  have hlt : p < 2 * W + 1 + size := by
    simp only [p]; split <;> omega
  refine ⟨by simp only [p]; omega, hp0, hlt, ?_⟩
  intro q hq hq0
  by_contra hc
  have hqp : q < p := by omega
  obtain ⟨k, hk⟩ := Nat.dvd_of_mod_eq_zero hp0
  obtain ⟨j, hj⟩ := Nat.dvd_of_mod_eq_zero hq0
  have hjk : j < k := by
    by_contra hjk
    have : size * k ≤ size * j := Nat.mul_le_mul_left _ (by omega)
    omega
  have : size * (j + 1) ≤ size * k := Nat.mul_le_mul_left _ hjk
  rw [Nat.mul_succ] at this
  omega

/-! ## Memory lemmas -/

theorem loadWord_congr (m1 m2 : Nat → Nat) (k a : Nat)
    (h : ∀ i < k, m1 (a + i) = m2 (a + i)) : loadWord m1 a k = loadWord m2 a k := by
  induction k generalizing a with
  | zero => rfl
  | succ k ih =>
    simp only [loadWord]
    have h0 := h 0 (by omega)
    simp only [Nat.add_zero] at h0
    rw [h0, ih (a + 1)]
    intro i hi
    have := h (i + 1) (by omega)
    have e : a + 1 + i = a + (i + 1) := by omega
    rw [e]; exact this

theorem loadWord_lt (m : Nat → Nat) (k a : Nat) : loadWord m a k < 256 ^ k := by
  induction k generalizing a with
  | zero => simp [loadWord]
  | succ k ih =>
    simp only [loadWord]
    have h1 := ih (a + 1)
    have h2 : m a % 256 < 256 := Nat.mod_lt _ (by norm_num)
    rw [Nat.pow_succ]
    omega

theorem loadWord_storeWord_aux (W : Nat) (m : Nat → Nat) (a v k j : Nat) (h : j + k ≤ W) :
    loadWord (storeWord W m a v) (a + j) k = (v / 256 ^ j) % 256 ^ k := by
  induction k generalizing j with
  | zero => simp [loadWord, Nat.mod_one]
  | succ k ih =>
    simp only [loadWord]
    have e : a + j + 1 = a + (j + 1) := by omega
    rw [e, ih (j + 1) (by omega)]
    have hs : storeWord W m a v (a + j) = (v / 256 ^ j) % 256 := by
      unfold storeWord
      rw [if_pos ⟨by omega, by omega⟩, Nat.add_sub_cancel_left]
    have e2 : v / 256 ^ (j + 1) = v / 256 ^ j / 256 := by
      rw [Nat.pow_succ, Nat.div_div_eq_div_mul]
    have e3 : 256 ^ (k + 1) = 256 * 256 ^ k := by
      rw [Nat.pow_succ, Nat.mul_comm]
    rw [hs, e2, e3, Nat.mod_mul, Nat.mod_mod]

theorem loadWord_storeWord (W : Nat) (m : Nat → Nat) (a v : Nat) (hv : v < sizeRange W) :
    loadWord (storeWord W m a v) a W = v := by
  have h := loadWord_storeWord_aux W m a v W 0 (by omega)
  simp only [Nat.add_zero, Nat.pow_zero, Nat.div_one] at h
  rw [h, ← sizeRange_eq]
  exact Nat.mod_eq_of_lt hv

theorem zeroLoop_apply (sptr pad fuel i : Nat) (m : Nat → Nat) (x : Nat)
    (h : pad ≤ i + fuel) :
    zeroLoop sptr pad fuel i m x = if sptr + i ≤ x ∧ x < sptr + pad then 0 else m x := by
  induction fuel generalizing i m with
  | zero =>
    simp only [zeroLoop]
    rw [if_neg (by omega)]
  | succ f ih =>
    simp only [zeroLoop]
    by_cases hi : i < pad
    · rw [if_pos hi, ih (i + 1) _ (by omega)]
      unfold storeByte
      by_cases hx : x = sptr + i
      · subst hx
        rw [if_neg (by omega), if_pos rfl, if_pos ⟨by omega, by omega⟩]
      · by_cases hr : sptr + (i + 1) ≤ x ∧ x < sptr + pad
        · rw [if_pos hr, if_pos ⟨by omega, by omega⟩]
        · rw [if_neg hr, if_neg hx, if_neg (by omega)]
    · rw [if_neg hi, if_neg (by omega)]

theorem scanBack_pad (m : Nat → Nat) (s k : Nat) (hs : m s ≠ 0)
    (hz : ∀ i < k, m (s + 1 + i) = 0) : scanBack m (s + 1 + k) = some s := by
  induction k with
  | zero => simp [scanBack, hs]
  | succ k ih =>
    have e : s + 1 + (k + 1) = (s + 1 + k) + 1 := by omega
    rw [e]
    simp only [scanBack]
    rw [if_neg (by simp [hz k (by omega)])]
    exact ih (fun i hi => hz i (by omega))


/-- The three header stores: both header words read back, the sentinel is `1`, and nothing
beyond the sentinel is touched. -/
theorem header_stores (W : Nat) (m0 : Nat → Nat) (base n s : Nat)
    (hn : n < sizeRange W) (hs : s < sizeRange W) :
    loadWord (storeByte (storeWord W (storeWord W m0 base n) (base + W) s) (base + 2 * W) 1)
      base W = n ∧
    loadWord (storeByte (storeWord W (storeWord W m0 base n) (base + W) s) (base + 2 * W) 1)
      (base + W) W = s ∧
    storeByte (storeWord W (storeWord W m0 base n) (base + W) s) (base + 2 * W) 1
      (base + 2 * W) = 1 ∧
    ∀ x, base + 2 * W + 1 ≤ x →
      storeByte (storeWord W (storeWord W m0 base n) (base + W) s) (base + 2 * W) 1 x = m0 x := by
  refine ⟨?_, ?_, ?_, ?_⟩
  · rw [loadWord_congr _ (storeWord W m0 base n) W base, loadWord_storeWord W m0 base n hn]
    intro i hi
    simp only [storeByte, storeWord]
    rw [if_neg (by omega), if_neg (by omega)]
  · rw [loadWord_congr _ (storeWord W (storeWord W m0 base n) (base + W) s) W (base + W),
      loadWord_storeWord W _ (base + W) s hs]
    intro i hi
    simp only [storeByte]
    rw [if_neg (by omega)]
  · simp [storeByte]
  · intro x hx
    simp only [storeByte, storeWord]
    rw [if_neg (by omega), if_neg (by omega), if_neg (by omega)]

/-- The header stores followed by the zeroing loop. -/
theorem header_mem (W : Nat) (m0 : Nat → Nat) (base n s pad : Nat)
    (hp : 2 * W + 1 ≤ pad) (hn : n < sizeRange W) (hs : s < sizeRange W) :
    loadWord (zeroLoop base pad pad (2 * W + 1)
      (storeByte (storeWord W (storeWord W m0 base n) (base + W) s) (base + 2 * W) 1))
      base W = n ∧
    loadWord (zeroLoop base pad pad (2 * W + 1)
      (storeByte (storeWord W (storeWord W m0 base n) (base + W) s) (base + 2 * W) 1))
      (base + W) W = s ∧
    zeroLoop base pad pad (2 * W + 1)
      (storeByte (storeWord W (storeWord W m0 base n) (base + W) s) (base + 2 * W) 1)
      (base + 2 * W) = 1 ∧
    (∀ i < pad, 2 * W + 1 ≤ i → zeroLoop base pad pad (2 * W + 1)
      (storeByte (storeWord W (storeWord W m0 base n) (base + W) s) (base + 2 * W) 1)
      (base + i) = 0) ∧
    ∀ x, base + pad ≤ x → zeroLoop base pad pad (2 * W + 1)
      (storeByte (storeWord W (storeWord W m0 base n) (base + W) s) (base + 2 * W) 1) x
      = m0 x := by
  obtain ⟨h1, h2, h3, h4⟩ := header_stores W m0 base n s hn hs
  have hz := fun x => zeroLoop_apply base pad pad (2 * W + 1)
    (storeByte (storeWord W (storeWord W m0 base n) (base + W) s) (base + 2 * W) 1) x
    (by omega)
  refine ⟨?_, ?_, ?_, ?_, ?_⟩
  · refine Eq.trans ?_ h1
    apply loadWord_congr
    intro i hi
    rw [hz, if_neg (by omega)]
  · refine Eq.trans ?_ h2
    apply loadWord_congr
    intro i hi
    rw [hz, if_neg (by omega)]
  · rw [hz, if_neg (by omega)]; exact h3
  · intro i hi h2w
    rw [hz, if_pos ⟨by omega, by omega⟩]
  · intro x hx
    rw [hz, if_neg (by omega)]
    exact h4 x (by omega)

theorem get_meta_valid (W : Nat) (H : Heap) (base n s pad asz : Nat) (hW : 0 < W)
    (hv : ValidBlock W H base n s pad asz) : _get_sptr_meta W H (base + pad) = some base := by
  obtain ⟨hb, hp, -, -, -, -, -, hsent, hzero⟩ := hv
  unfold _get_sptr_meta
  rw [if_neg (by omega)]
  have e : base + pad = (base + 2 * W) + 1 + (pad - (2 * W + 1)) := by omega
  have hscan : scanBack H.mem (base + pad) = some (base + 2 * W) := by
    rw [e]
    apply scanBack_pad
    · rw [hsent]; decide
    · intro i hi
      have := hzero (2 * W + 1 + i) (by omega) (by omega)
      have e2 : base + 2 * W + 1 + i = base + (2 * W + 1 + i) := by omega
      rw [e2]; exact this
  rw [hscan, min_pad_eq W hW]
  simp only
  rw [if_neg (by omega)]
  congr 1
  omega


/-! ## Live blocks and fresh allocations -/

theorem get_pad_ge (W size pad : Nat) (hW : 0 < W) (hsz : size < sizeRange W)
    (hpad : _sptr_get_pad W size = some pad) :
    1 ≤ size ∧ 2 * W + 1 ≤ pad ∧ pad < sizeRange W := by
  have h1 : 1 ≤ size := by
    by_contra hc
    have : size = 0 := by omega
    simp [_sptr_get_pad, this] at hpad
  obtain ⟨e, hlt⟩ := get_pad_eq W size hW h1 hsz
  rw [hpad] at e
  injection e with e
  have hp := (pad_props W size h1).1
  simp only at hp
  rw [← e] at hp hlt
  exact ⟨h1, hp, hlt⟩

theorem valid_length (W : Nat) (H : Heap) (base n s pad asz : Nat) (hW : 0 < W)
    (hv : ValidBlock W H base n s pad asz) : sptr_length W H (base + pad) = some n := by
  have hm := get_meta_valid W H base n s pad asz hW hv
  obtain ⟨hb, hp, -, -, -, hn, -, -, -⟩ := hv
  unfold sptr_length
  rw [if_neg (by omega), hm]
  simp only [_SPTR_LENGTH_INDEX, Nat.mul_zero, Nat.add_zero, hn]

theorem valid_item_size (W : Nat) (H : Heap) (base n s pad asz : Nat) (hW : 0 < W)
    (hv : ValidBlock W H base n s pad asz) : sptr_item_size W H (base + pad) = some s := by
  have hm := get_meta_valid W H base n s pad asz hW hv
  obtain ⟨hb, hp, -, -, -, -, hs, -, -⟩ := hv
  unfold sptr_item_size
  rw [if_neg (by omega), hm]
  simp only [_SPTR_SIZE_INDEX, Nat.mul_one, hs]

theorem valid_size (W : Nat) (H : Heap) (base n s pad asz : Nat) (hW : 0 < W)
    (hv : ValidBlock W H base n s pad asz) : sptr_size W H (base + pad) = some (n * s) := by
  have hm := get_meta_valid W H base n s pad asz hW hv
  obtain ⟨hb, hp, -, hfit, hasz, hn, hs, -, -⟩ := hv
  unfold sptr_size
  rw [if_neg (by omega), hm]
  simp only [_SPTR_LENGTH_INDEX, _SPTR_SIZE_INDEX, Nat.mul_zero, Nat.add_zero, Nat.mul_one,
    hn, hs]
  rw [mul_check_ok W n s (by omega)]
  simp

theorem malloc_sptr_valid (W : Nat) (H : Heap) (nitems size pad : Nat) (c : HostChoice)
    (hW : 0 < W) (hsz : size < sizeRange W) (hpad : _sptr_get_pad W size = some pad)
    (hfit : nitems * size + pad < sizeRange W) (hc : c.addr ≠ 0) :
    ∃ H', malloc_sptr W H nitems size c = some (c.addr + pad, H') ∧
      ValidBlock W H' c.addr nitems size pad (nitems * size + pad) ∧
      (∀ i < nitems * size, H'.mem (c.addr + pad + i) = c.junk (pad + i) % 256) ∧
      ∀ b, b ≠ c.addr → H'.live b = H.live b := by
  obtain ⟨h1, hp, -⟩ := get_pad_ge W size pad hW hsz hpad
  have hn : nitems < sizeRange W := by
    have : nitems ≤ nitems * size := Nat.le_mul_of_pos_right _ h1
    omega
  unfold malloc_sptr
  rw [hpad]
  simp only [mul_check_ok W nitems size (by omega), add_check_ok W (nitems * size) pad hfit,
    malloc, if_neg hc, Bool.false_eq_true, if_false, _SPTR_LENGTH_INDEX, _SPTR_SIZE_INDEX,
    Nat.mul_zero, Nat.add_zero, Nat.mul_one, min_pad_eq W hW, Nat.add_sub_cancel]
  refine ⟨_, rfl, ?_, ?_, ?_⟩
  · obtain ⟨a1, a2, a3, a4, -⟩ := header_mem W
      (fun x => if c.addr ≤ x ∧ x < c.addr + (nitems * size + pad)
        then c.junk (x - c.addr) % 256 else H.mem x) c.addr nitems size pad hp hn hsz
    exact ⟨hc, hp, by simp, le_refl _, hfit, a1, a2, a3, a4⟩
  · intro i hi
    obtain ⟨-, -, -, -, a5⟩ := header_mem W
      (fun x => if c.addr ≤ x ∧ x < c.addr + (nitems * size + pad)
        then c.junk (x - c.addr) % 256 else H.mem x) c.addr nitems size pad hp hn hsz
    simp only
    rw [a5 _ (by omega), if_pos ⟨by omega, by omega⟩]
    congr 2
    omega
  · intro b hb
    simp [hb]


theorem malloc_sptr_overflow (W : Nat) (H : Heap) (nitems size pad : Nat) (c : HostChoice)
    (hpad : _sptr_get_pad W size = some pad) (hp : pad < sizeRange W)
    (hov : sizeRange W ≤ nitems * size + pad) :
    malloc_sptr W H nitems size c = some (0, H) := by
  unfold malloc_sptr
  rw [hpad]
  simp only
  by_cases hm : nitems * size < sizeRange W
  · rw [mul_check_ok W nitems size hm]
    simp only [Bool.false_eq_true, if_false]
    rw [if_pos (add_check_overflow W (nitems * size) pad hm hp hov)]
  · rw [if_pos (mul_check_overflow W nitems size (by omega))]

theorem malloc_sptr_host_fail (W : Nat) (H : Heap) (nitems size pad : Nat) (c : HostChoice)
    (hpad : _sptr_get_pad W size = some pad) (hc : c.addr = 0) :
    malloc_sptr W H nitems size c = some (0, H) := by
  unfold malloc_sptr
  rw [hpad]
  simp only [malloc, hc, if_true]
  split
  · rfl
  · split <;> rfl

/-- C1 (round-trip header encoding).  When `item_count * item_size + pad` fits in `size_t` and
the host allocation succeeds, `malloc_sptr` returns the handle `c.addr + pad` and on the heap it
leaves `sptr_length` of the handle is `item_count` and `sptr_item_size` is `item_size`, for any
previous heap `H` and any contents `c.junk` of the fresh bytes. -/
theorem malloc_sptr_roundtrip (W : Nat) (H : Heap) (nitems size pad : Nat) (c : HostChoice)
    (hW : 0 < W) (hsz : size < sizeRange W) (hpad : _sptr_get_pad W size = some pad)
    (hfit : nitems * size + pad < sizeRange W) (hc : c.addr ≠ 0) :
    ∃ H', malloc_sptr W H nitems size c = some (c.addr + pad, H') ∧
      sptr_length W H' (c.addr + pad) = some nitems ∧
      sptr_item_size W H' (c.addr + pad) = some size := by
  obtain ⟨H', hres, hv, -, -⟩ := malloc_sptr_valid W H nitems size pad c hW hsz hpad hfit hc
  exact ⟨H', hres, valid_length W H' _ _ _ _ _ hW hv, valid_item_size W H' _ _ _ _ _ hW hv⟩

theorem malloc_sptr_roundtrip_witness :
    ∃ H', malloc_sptr 8 emptyHeap 2 4 ⟨4096, fun i => 170 + i⟩ = some (4096 + 20, H') ∧
      sptr_length 8 H' (4096 + 20) = some 2 ∧ sptr_item_size 8 H' (4096 + 20) = some 4 :=
  malloc_sptr_roundtrip 8 emptyHeap 2 4 20 ⟨4096, fun i => 170 + i⟩ (by decide) (by decide)
    (by decide) (by decide) (by decide)

/-- C3 (overflow guard).  If `count * size` or `count * size + pad` exceeds the `size_t` range,
`malloc_sptr` returns `NULL` and the heap is the one it was given, whatever the host would have
decided; when neither overflows it returns, and returns `NULL` only if the host allocator
failed. -/
theorem malloc_sptr_overflow_guard (W : Nat) (H : Heap) (nitems size pad : Nat)
    (hW : 0 < W) (hsz : size < sizeRange W) (hpad : _sptr_get_pad W size = some pad) :
    (sizeRange W ≤ nitems * size ∨ sizeRange W ≤ nitems * size + pad →
      ∀ c, malloc_sptr W H nitems size c = some (0, H)) ∧
    (nitems * size + pad < sizeRange W →
      ∀ c, ∃ h H', malloc_sptr W H nitems size c = some (h, H') ∧ (h = 0 → c.addr = 0)) := by
  obtain ⟨-, -, hp⟩ := get_pad_ge W size pad hW hsz hpad
  refine ⟨?_, ?_⟩
  · intro hov c
    exact malloc_sptr_overflow W H nitems size pad c hpad hp (by omega)
  · intro hfit c
    by_cases hc : c.addr = 0
    · exact ⟨0, H, malloc_sptr_host_fail W H nitems size pad c hpad hc, fun _ => hc⟩
    · obtain ⟨H', hres, -⟩ := malloc_sptr_valid W H nitems size pad c hW hsz hpad hfit hc
      exact ⟨_, H', hres, fun h0 => by omega⟩

theorem malloc_sptr_overflow_guard_witness :
    (∀ c, malloc_sptr 8 emptyHeap (2 ^ 62) 4 c = some (0, emptyHeap)) ∧
    (∀ c, malloc_sptr 8 emptyHeap (2 ^ 64 - 17) 1 c = some (0, emptyHeap)) ∧
    (∀ c, ∃ h H', malloc_sptr 8 emptyHeap 2 4 c = some (h, H') ∧ (h = 0 → c.addr = 0)) :=
  ⟨(malloc_sptr_overflow_guard 8 emptyHeap (2 ^ 62) 4 20 (by decide) (by decide)
      (by decide)).1 (Or.inl (by decide)),
   (malloc_sptr_overflow_guard 8 emptyHeap (2 ^ 64 - 17) 1 17 (by decide) (by decide)
      (by decide)).1 (Or.inr (by decide)),
   (malloc_sptr_overflow_guard 8 emptyHeap 2 4 20 (by decide) (by decide)
      (by decide)).2 (by decide)⟩

/-- C4 (pad length).  For `1 ≤ item_size`, `_sptr_get_pad item_size` is the least multiple of
`item_size` that is at least `2 * sizeof(size_t) + 1`; it is below
`2 * sizeof(size_t) + 1 + item_size`; and the `size_t` computation does not wrap: the macro
`_sptr_min_pad` is `2 * W + 1`, the subtraction does not go below zero, and the result is the
value of the expression over the natural numbers, which is below `sizeRange W`. -/
theorem sptr_get_pad_least_multiple (W size : Nat) (hW : 0 < W) (h1 : 1 ≤ size)
    (h2 : size < sizeRange W) :
    ∃ p, _sptr_get_pad W size = some p ∧
      2 * W + 1 ≤ p ∧ p % size = 0 ∧ (∀ q, 2 * W + 1 ≤ q → q % size = 0 → p ≤ q) ∧
      p < 2 * W + 1 + size ∧
      _sptr_min_pad W = 2 * W + 1 ∧ (2 * W + 1) % size < size ∧
      p = 2 * W + 1 + (if (2 * W + 1) % size ≠ 0 then size - (2 * W + 1) % size else 0) ∧
      p < sizeRange W := by
  obtain ⟨e, hlt⟩ := get_pad_eq W size hW h1 h2
  obtain ⟨p1, p2, p3, p4⟩ := pad_props W size h1
  exact ⟨_, e, p1, p2, p4, p3, min_pad_eq W hW, Nat.mod_lt _ (by omega), rfl, hlt⟩

theorem sptr_get_pad_least_multiple_witness :
    ∃ p, _sptr_get_pad 8 4 = some p ∧
      2 * 8 + 1 ≤ p ∧ p % 4 = 0 ∧ (∀ q, 2 * 8 + 1 ≤ q → q % 4 = 0 → p ≤ q) ∧
      p < 2 * 8 + 1 + 4 ∧
      _sptr_min_pad 8 = 2 * 8 + 1 ∧ (2 * 8 + 1) % 4 < 4 ∧
      p = 2 * 8 + 1 + (if (2 * 8 + 1) % 4 ≠ 0 then 4 - (2 * 8 + 1) % 4 else 0) ∧
      p < sizeRange 8 :=
  sptr_get_pad_least_multiple 8 4 (by decide) (by decide) (by decide)


theorem calloc_sptr_valid (W : Nat) (H : Heap) (nitems size pad : Nat) (c : HostChoice)
    (hW : 0 < W) (hsz : size < sizeRange W) (hpad : _sptr_get_pad W size = some pad)
    (hfit : nitems * size + pad < sizeRange W) (hc : c.addr ≠ 0) :
    ∃ H', calloc_sptr W H nitems size c = some (c.addr + pad, H') ∧
      ValidBlock W H' c.addr nitems size pad (nitems * size + pad) ∧
      (∀ i < nitems * size, H'.mem (c.addr + pad + i) = 0) ∧
      ∀ b, b ≠ c.addr → H'.live b = H.live b := by
  obtain ⟨h1, hp, -⟩ := get_pad_ge W size pad hW hsz hpad
  have hn : nitems < sizeRange W := by
    have : nitems ≤ nitems * size := Nat.le_mul_of_pos_right _ h1
    omega
  unfold calloc_sptr
  rw [hpad]
  simp only [mul_check_ok W nitems size (by omega), add_check_ok W (nitems * size) pad hfit,
    calloc, if_neg hc, Bool.false_eq_true, if_false, _SPTR_LENGTH_INDEX, _SPTR_SIZE_INDEX,
    Nat.mul_zero, Nat.add_zero, Nat.mul_one, min_pad_eq W hW, Nat.add_sub_cancel]
  obtain ⟨a1, a2, a3, a4⟩ := header_stores W
    (fun x => if c.addr ≤ x ∧ x < c.addr + (nitems * size + pad) then 0 else H.mem x)
    c.addr nitems size hn hsz
  refine ⟨_, rfl, ⟨hc, hp, by simp, le_refl _, hfit, a1, a2, a3, ?_⟩, ?_, ?_⟩
  · intro i hi h2w
    simp only
    rw [a4 _ (by omega), if_pos ⟨by omega, by omega⟩]
  · intro i hi
    simp only
    rw [a4 _ (by omega), if_pos ⟨by omega, by omega⟩]
  · intro b hb
    simp [hb]

theorem calloc_sptr_overflow (W : Nat) (H : Heap) (nitems size pad : Nat) (c : HostChoice)
    (hpad : _sptr_get_pad W size = some pad) (hp : pad < sizeRange W)
    (hov : sizeRange W ≤ nitems * size + pad) :
    calloc_sptr W H nitems size c = some (0, H) := by
  unfold calloc_sptr
  rw [hpad]
  simp only
  by_cases hm : nitems * size < sizeRange W
  · rw [mul_check_ok W nitems size hm]
    simp only [Bool.false_eq_true, if_false]
    rw [if_pos (add_check_overflow W (nitems * size) pad hm hp hov)]
  · rw [if_pos (mul_check_overflow W nitems size (by omega))]

theorem calloc_sptr_host_fail (W : Nat) (H : Heap) (nitems size pad : Nat) (c : HostChoice)
    (hpad : _sptr_get_pad W size = some pad) (hc : c.addr = 0) :
    calloc_sptr W H nitems size c = some (0, H) := by
  unfold calloc_sptr
  rw [hpad]
  simp only [calloc, hc, if_true]
  split
  · rfl
  · split <;> rfl

/-- C2 (zero-fill).  For `1 ≤ item_size`, `calloc_sptr` always returns; it returns a non-null
handle exactly when `item_count * item_size + pad` fits in `size_t` and the host allocation
succeeds; and then every one of the `item_count * item_size` payload bytes at the handle is `0`,
`sptr_length` of the handle is `item_count` and `sptr_item_size` is `item_size`. -/
theorem calloc_sptr_zero_fill (W : Nat) (H : Heap) (nitems size : Nat) (c : HostChoice)
    (hW : 0 < W) (h1 : 1 ≤ size) (hsz : size < sizeRange W) :
    ∃ pad h H', _sptr_get_pad W size = some pad ∧
      calloc_sptr W H nitems size c = some (h, H') ∧
      (h ≠ 0 ↔ nitems * size + pad < sizeRange W ∧ c.addr ≠ 0) ∧
      (h ≠ 0 → (∀ i < nitems * size, H'.mem (h + i) = 0) ∧
        sptr_length W H' h = some nitems ∧ sptr_item_size W H' h = some size) := by
  obtain ⟨pad, hpad⟩ : ∃ pad, _sptr_get_pad W size = some pad :=
    ⟨_, (get_pad_eq W size hW h1 hsz).1⟩
  obtain ⟨-, -, hp⟩ := get_pad_ge W size pad hW hsz hpad
  refine ⟨pad, ?_⟩
  by_cases hfit : nitems * size + pad < sizeRange W
  · by_cases hc : c.addr = 0
    · refine ⟨0, H, hpad, calloc_sptr_host_fail W H nitems size _ c hpad hc, ?_, ?_⟩
      · simp [hc]
      · intro h; exact absurd rfl h
    · obtain ⟨H', hres, hv, hz, -⟩ := calloc_sptr_valid W H nitems size _ c hW hsz hpad hfit hc
      refine ⟨_, H', hpad, hres, ?_, ?_⟩
      · constructor
        · intro _; exact ⟨hfit, hc⟩
        · intro _; omega
      · intro _
        exact ⟨hz, valid_length W H' _ _ _ _ _ hW hv, valid_item_size W H' _ _ _ _ _ hW hv⟩
  · refine ⟨0, H, hpad, calloc_sptr_overflow W H nitems size _ c hpad hp (by omega), ?_, ?_⟩
    · constructor
      · intro h; exact absurd rfl h
      · intro h; exact absurd h.1 hfit
    · intro h; exact absurd rfl h

theorem calloc_sptr_zero_fill_witness :
    ∃ pad h H', _sptr_get_pad 8 4 = some pad ∧
      calloc_sptr 8 emptyHeap 5 4 ⟨4096, fun _ => 255⟩ = some (h, H') ∧
      (h ≠ 0 ↔ 5 * 4 + pad < sizeRange 8 ∧ (4096 : Nat) ≠ 0) ∧
      (h ≠ 0 → (∀ i < 5 * 4, H'.mem (h + i) = 0) ∧
        sptr_length 8 H' h = some 5 ∧ sptr_item_size 8 H' h = some 4) :=
  calloc_sptr_zero_fill 8 emptyHeap 5 4 ⟨4096, fun _ => 255⟩ (by decide) (by decide)
    (by decide)


/-! ## Reallocation -/

theorem storeWord_above (W : Nat) (m : Nat → Nat) (a v x : Nat) (hx : a + W ≤ x) :
    storeWord W m a v x = m x := by
  unfold storeWord
  rw [if_neg (by omega)]

theorem storeWord_idem (W : Nat) (m : Nat → Nat) (a v : Nat) :
    storeWord W (storeWord W m a v) a v = storeWord W m a v := by
  funext x
  unfold storeWord
  by_cases h : a ≤ x ∧ x < a + W
  · rw [if_pos h, if_pos h]
  · rw [if_neg h, if_neg h]

/-- Two memories that agree on `k` bytes, possibly at different addresses, load the same
number. -/
theorem eq_of_forall_loadWord {m1 m2 : Nat → Nat} {k a b : Nat}
    (h : ∀ i < k, m1 (a + i) = m2 (b + i)) : loadWord m1 a k = loadWord m2 b k := by
  induction k generalizing a b with
  | zero => rfl
  | succ k ih =>
    simp only [loadWord]
    have h0 := h 0 (by omega)
    simp only [Nat.add_zero] at h0
    rw [h0, ih]
    intro i hi
    have := h (i + 1) (by omega)
    have e1 : a + 1 + i = a + (i + 1) := by omega
    have e2 : b + 1 + i = b + (i + 1) := by omega
    rw [e1, e2]; exact this

/-- Host `realloc` of a live block when the host succeeds. -/
theorem realloc_live (H : Heap) (p n old : Nat) (c : HostChoice) (hp : p ≠ 0)
    (hl : H.live p = some old) (hc : c.addr ≠ 0) :
    ∃ H1, realloc H p n c = some (c.addr, H1) ∧ H1.live c.addr = some n ∧
      (∀ j, j < old → j < n → H1.mem (c.addr + j) = H.mem (p + j)) ∧
      (∀ j, j < n → old ≤ j → H1.mem (c.addr + j) = c.junk j % 256) ∧
      (∀ x, x < c.addr ∨ c.addr + n ≤ x → H1.mem x = H.mem x) ∧
      (∀ b, b ≠ c.addr → b ≠ p → H1.live b = H.live b) ∧
      (p ≠ c.addr → H1.live p = none) := by
  unfold realloc
  rw [if_neg hp, hl]
  simp only [if_neg hc]
  refine ⟨_, rfl, by simp, ?_, ?_, ?_, ?_, ?_⟩
  · intro j h1 h2
    simp only
    rw [if_pos ⟨by omega, by omega⟩, Nat.add_sub_cancel_left, if_pos h1]
  · intro j h1 h2
    simp only
    rw [if_pos ⟨by omega, by omega⟩, Nat.add_sub_cancel_left, if_neg (by omega)]
  · intro x hx
    simp only
    rw [if_neg (by omega)]
  · intro b h1 h2
    simp only
    rw [if_neg h1, if_neg h2]
  · intro h
    simp only
    rw [if_neg h]
    simp

/-- Host `realloc` of a live block when the host fails. -/
theorem realloc_live_fail (H : Heap) (p n old : Nat) (c : HostChoice) (hp : p ≠ 0)
    (hl : H.live p = some old) (hc : c.addr = 0) :
    realloc H p n c = some (0, H) := by
  unfold realloc
  rw [if_neg hp, hl]
  simp only [hc, if_true]

/-- The failure paths of `realloc_sptr` on a live block: overflow or a failing host. -/
theorem realloc_sptr_fail (W : Nat) (H : Heap) (base n s pad asz k : Nat) (c : HostChoice)
    (hW : 0 < W) (hv : ValidBlock W H base n s pad asz)
    (hf : sizeRange W ≤ k * s + pad ∨ c.addr = 0) :
    realloc_sptr W H (base + pad) k c = some (0, H) := by
  have hm := get_meta_valid W H base n s pad asz hW hv
  obtain ⟨hb, hp, hlive, hfit, hasz, hn, hs, hsent, hzero⟩ := hv
  have hpm : (base + pad - base) % sizeRange W = pad := by
    rw [Nat.add_sub_cancel_left]; exact Nat.mod_eq_of_lt (by omega)
  unfold realloc_sptr
  rw [if_neg (by omega), hm]
  simp only [_SPTR_SIZE_INDEX, _SPTR_LENGTH_INDEX, Nat.mul_one, Nat.mul_zero, Nat.add_zero, hs,
    hpm]
  by_cases hmul : k * s < sizeRange W
  · rw [mul_check_ok W k s hmul]
    simp only [Bool.false_eq_true, if_false]
    by_cases hadd : k * s + pad < sizeRange W
    · have hc : c.addr = 0 := by omega
      rw [add_check_ok W (k * s) pad hadd]
      simp only [Bool.false_eq_true, if_false, realloc_live_fail H base _ asz c hb hlive hc,
        if_true]
    · rw [if_pos (add_check_overflow W (k * s) pad hmul (by omega) (by omega))]
  · rw [if_pos (mul_check_overflow W k s (by omega))]

/-- The success path of `realloc_sptr` on a live block. -/
theorem realloc_sptr_valid (W : Nat) (H : Heap) (base n s pad asz k : Nat) (c : HostChoice)
    (hW : 0 < W) (hv : ValidBlock W H base n s pad asz) (hk : k < sizeRange W)
    (hfit : k * s + pad < sizeRange W) (hc : c.addr ≠ 0) :
    ∃ H', realloc_sptr W H (base + pad) k c = some (c.addr + pad, H') ∧
      ValidBlock W H' c.addr k s pad (k * s + pad) ∧
      (∀ i < min n k * s, H'.mem (c.addr + pad + i) = H.mem (base + pad + i)) ∧
      (∀ b, b ≠ c.addr → b ≠ base → H'.live b = H.live b) ∧
      (base ≠ c.addr → H'.live base = none) := by
  have hm := get_meta_valid W H base n s pad asz hW hv
  obtain ⟨hb, hp, hlive, hfit0, hasz, hn, hs, hsent, hzero⟩ := hv
  have hpm : (base + pad - base) % sizeRange W = pad := by
    rw [Nat.add_sub_cancel_left]; exact Nat.mod_eq_of_lt (by omega)
  obtain ⟨H1, hr, hl1, hcopy, -, -, hlo, hfree⟩ :=
    realloc_live H base (k * s + pad) asz c hb hlive hc
  unfold realloc_sptr
  rw [if_neg (by omega), hm]
  simp only [_SPTR_SIZE_INDEX, _SPTR_LENGTH_INDEX, Nat.mul_one, Nat.mul_zero, Nat.add_zero, hs,
    hpm, mul_check_ok W k s (by omega), add_check_ok W (k * s) pad hfit, Bool.false_eq_true,
    if_false, hr, if_neg hc]
  refine ⟨_, rfl, ⟨hc, hp, hl1, le_refl _, hfit, ?_, ?_, ?_, ?_⟩, ?_, hlo, hfree⟩
  · exact loadWord_storeWord W _ c.addr k hk
  · refine Eq.trans ?_ hs
    show loadWord (storeWord W H1.mem c.addr k) (c.addr + W) W = loadWord H.mem (base + W) W
    rw [loadWord_congr (storeWord W H1.mem c.addr k) H1.mem W (c.addr + W)
      (fun i _ => storeWord_above W _ _ _ _ (by omega))]
    apply eq_of_forall_loadWord
    intro i hi
    show H1.mem (c.addr + W + i) = _
    rw [Nat.add_assoc, Nat.add_assoc, hcopy (W + i) (by omega) (by omega)]
  · show storeWord W H1.mem c.addr k (c.addr + 2 * W) = _
    rw [storeWord_above W _ _ _ _ (by omega), hcopy (2 * W) (by omega) (by omega)]
    exact hsent
  · intro i hi h2w
    show storeWord W H1.mem c.addr k (c.addr + i) = _
    rw [storeWord_above W _ _ _ _ (by omega), hcopy i (by omega) (by omega)]
    exact hzero i hi h2w
  · intro i hi
    have h1 : min n k * s ≤ n * s := Nat.mul_le_mul_right _ (Nat.min_le_left _ _)
    have h2 : min n k * s ≤ k * s := Nat.mul_le_mul_right _ (Nat.min_le_right _ _)
    show storeWord W H1.mem c.addr k (c.addr + pad + i) = _
    rw [storeWord_above W _ _ _ _ (by omega), Nat.add_assoc, Nat.add_assoc,
      hcopy (pad + i) (by omega) (by omega)]


theorem valid_count_lt (W : Nat) (H : Heap) (base n s pad asz : Nat)
    (hv : ValidBlock W H base n s pad asz) : n < sizeRange W ∧ s < sizeRange W := by
  obtain ⟨-, -, -, -, -, hn, hs, -, -⟩ := hv
  rw [sizeRange_eq, ← hn, ← hs]
  exact ⟨loadWord_lt _ _ _, loadWord_lt _ _ _⟩

/-- On a live block `realloc_sptr` always returns; it fails exactly on overflow or host
failure, leaving the heap as it was; on success the new block is live with the new count. -/
theorem realloc_sptr_cases (W : Nat) (H : Heap) (base n s pad asz k : Nat) (c : HostChoice)
    (hW : 0 < W) (hv : ValidBlock W H base n s pad asz) (hk : k < sizeRange W) :
    ∃ r H', realloc_sptr W H (base + pad) k c = some (r, H') ∧
      (r ≠ 0 ↔ k * s + pad < sizeRange W ∧ c.addr ≠ 0) ∧
      (r = 0 → H' = H) ∧
      (r ≠ 0 → r = c.addr + pad ∧ ValidBlock W H' c.addr k s pad (k * s + pad) ∧
        ∀ i < min n k * s, H'.mem (r + i) = H.mem (base + pad + i)) := by
  by_cases hok : k * s + pad < sizeRange W ∧ c.addr ≠ 0
  · obtain ⟨H', hres, hv', hpay, -⟩ :=
      realloc_sptr_valid W H base n s pad asz k c hW hv hk hok.1 hok.2
    have hne : c.addr + pad ≠ 0 := by have := hok.2; omega
    exact ⟨_, H', hres, ⟨fun _ => hok, fun _ => hne⟩, fun h => absurd h hne,
      fun _ => ⟨rfl, hv', hpay⟩⟩
  · have hf : sizeRange W ≤ k * s + pad ∨ c.addr = 0 := by
      by_cases h1 : k * s + pad < sizeRange W
      · right
        by_contra h2
        exact hok ⟨h1, h2⟩
      · left; omega
    exact ⟨0, H, realloc_sptr_fail W H base n s pad asz k c hW hv hf,
      ⟨fun h => absurd rfl h, fun h => absurd h hok⟩, fun _ => rfl, fun h => absurd rfl h⟩

/-- On a live block `add_realloc_sptr` is `realloc_sptr` at the saturated sum. -/
theorem add_realloc_sptr_eq (W : Nat) (H : Heap) (base n s pad asz add : Nat) (c : HostChoice)
    (hW : 0 < W) (hv : ValidBlock W H base n s pad asz) (hadd : add < sizeRange W) :
    add_realloc_sptr W H (base + pad) add c =
      realloc_sptr W H (base + pad)
        (if n + add < sizeRange W then n + add else sizeRange W - 1) c := by
  have hm := get_meta_valid W H base n s pad asz hW hv
  have hnlt := (valid_count_lt W H base n s pad asz hv).1
  obtain ⟨hb, hp, hlive, hfit, hasz, hn, hs, hsent, hzero⟩ := hv
  unfold add_realloc_sptr realloc_sptr
  rw [if_neg (by omega), if_neg (by omega), hm]
  simp only [_SPTR_SIZE_INDEX, _SPTR_LENGTH_INDEX, Nat.mul_one, Nat.mul_zero, Nat.add_zero, hs,
    hn]
  by_cases hsum : n + add < sizeRange W
  · rw [add_check_ok W n add hsum, if_pos hsum]
    simp only [Bool.false_eq_true, if_false]
  · rw [if_neg hsum]
    simp only [add_check_overflow W n add hnlt hadd (by omega), if_true]

/-- On a live block `subtract_realloc_sptr` is `realloc_sptr` at the difference, `0` when more
items are removed than the block has. -/
theorem subtract_realloc_sptr_eq (W : Nat) (H : Heap) (base n s pad asz rem : Nat)
    (c : HostChoice) (hW : 0 < W) (hv : ValidBlock W H base n s pad asz) :
    subtract_realloc_sptr W H (base + pad) rem c =
      realloc_sptr W H (base + pad) (if rem ≤ n then n - rem else 0) c := by
  have hm := get_meta_valid W H base n s pad asz hW hv
  have hnlt := (valid_count_lt W H base n s pad asz hv).1
  obtain ⟨hb, hp, hlive, hfit, hasz, hn, hs, hsent, hzero⟩ := hv
  unfold subtract_realloc_sptr realloc_sptr _sptr_subtraction_underflow_check
  rw [if_neg (by omega), if_neg (by omega), hm]
  simp only [_SPTR_SIZE_INDEX, _SPTR_LENGTH_INDEX, Nat.mul_one, Nat.mul_zero, Nat.add_zero, hs,
    hn, storeWord_idem]
  by_cases hle : rem ≤ n
  · have e : (n + sizeRange W - rem) % sizeRange W = n - rem := by
      have : n + sizeRange W - rem = (n - rem) + sizeRange W := by omega
      rw [this, Nat.add_mod_right]
      exact Nat.mod_eq_of_lt (by omega)
    rw [if_pos hle, e]
    simp only [decide_eq_true_eq, if_neg (by omega : ¬ n < rem)]
  · rw [if_neg hle]
    simp only [decide_eq_true_eq, if_pos (by omega : n < rem)]


/-- C7 (reallocate).  On a live block of `n` items of `s` bytes with handle `base + pad`,
`realloc_sptr` with a new count `k` always returns; it succeeds exactly when `k * s + pad` fits
in `size_t` and the host reallocation succeeds; and then the returned handle `r` has
`sptr_length r = k`, `sptr_item_size r = s`, lies `pad` bytes after the start of its allocation
(the same pad as before), and its first `min n k * s` payload bytes are those of the old block.
For the null handle `realloc_sptr` returns `NULL` for every count. -/
theorem realloc_sptr_reallocate (W : Nat) (H : Heap) (base n s pad asz k : Nat)
    (c : HostChoice) (hW : 0 < W) (hv : ValidBlock W H base n s pad asz)
    (hk : k < sizeRange W) :
    (∃ r H', realloc_sptr W H (base + pad) k c = some (r, H') ∧
      (r ≠ 0 ↔ k * s + pad < sizeRange W ∧ c.addr ≠ 0) ∧
      (r ≠ 0 → sptr_length W H' r = some k ∧ sptr_item_size W H' r = some s ∧
        r = c.addr + pad ∧ _get_sptr_meta W H' r = some c.addr ∧
        ∀ i < min n k * s, H'.mem (r + i) = H.mem (base + pad + i))) ∧
    ∀ H0 k0 c0, realloc_sptr W H0 0 k0 c0 = some (0, H0) := by
  refine ⟨?_, fun H0 k0 c0 => by simp [realloc_sptr]⟩
  obtain ⟨r, H', hres, hiff, -, hok⟩ := realloc_sptr_cases W H base n s pad asz k c hW hv hk
  refine ⟨r, H', hres, hiff, fun hr => ?_⟩
  obtain ⟨e, hv', hpay⟩ := hok hr
  subst e
  exact ⟨valid_length W H' _ _ _ _ _ hW hv', valid_item_size W H' _ _ _ _ _ hW hv', rfl,
    get_meta_valid W H' _ _ _ _ _ hW hv', hpay⟩

theorem realloc_sptr_reallocate_witness :
    (∃ r H', realloc_sptr 8 demoHeap (4096 + 17) 3 ⟨8192, fun _ => 170⟩ = some (r, H') ∧
      (r ≠ 0 ↔ 3 * 1 + 17 < sizeRange 8 ∧ (8192 : Nat) ≠ 0) ∧
      (r ≠ 0 → sptr_length 8 H' r = some 3 ∧ sptr_item_size 8 H' r = some 1 ∧
        r = 8192 + 17 ∧ _get_sptr_meta 8 H' r = some 8192 ∧
        ∀ i < min 2 3 * 1, H'.mem (r + i) = demoHeap.mem (4096 + 17 + i))) ∧
    ∀ H0 k0 c0, realloc_sptr 8 H0 0 k0 c0 = some (0, H0) :=
  realloc_sptr_reallocate 8 demoHeap 4096 2 1 17 19 3 ⟨8192, fun _ => 170⟩ (by decide)
    (by decide) (by decide)

/-- C8 (failure atomicity of the consuming operations).  On a live block each of
`realloc_sptr`, `add_realloc_sptr` and `subtract_realloc_sptr` returns, and whenever it returns
`NULL` the heap afterwards is the heap before: every byte and the allocation table are
unchanged, so the block is still live with the same length, item size and payload. -/
theorem consuming_realloc_failure_atomic (W : Nat) (H : Heap) (base n s pad asz x : Nat)
    (c : HostChoice) (hW : 0 < W) (hv : ValidBlock W H base n s pad asz)
    (hx : x < sizeRange W) :
    (∃ r H', realloc_sptr W H (base + pad) x c = some (r, H') ∧
      (r = 0 → H' = H ∧ ValidBlock W H' base n s pad asz)) ∧
    (∃ r H', add_realloc_sptr W H (base + pad) x c = some (r, H') ∧
      (r = 0 → H' = H ∧ ValidBlock W H' base n s pad asz)) ∧
    (∃ r H', subtract_realloc_sptr W H (base + pad) x c = some (r, H') ∧
      (r = 0 → H' = H ∧ ValidBlock W H' base n s pad asz)) := by
  have key : ∀ k, k < sizeRange W → ∃ r H', realloc_sptr W H (base + pad) k c = some (r, H') ∧
      (r = 0 → H' = H ∧ ValidBlock W H' base n s pad asz) := by
    intro k hk
    obtain ⟨r, H', hres, -, hz, -⟩ := realloc_sptr_cases W H base n s pad asz k c hW hv hk
    exact ⟨r, H', hres, fun h => ⟨hz h, by rw [hz h]; exact hv⟩⟩
  have hnlt := (valid_count_lt W H base n s pad asz hv).1
  have hpos := sizeRange_pos W
  refine ⟨key x hx, ?_, ?_⟩
  · rw [add_realloc_sptr_eq W H base n s pad asz x c hW hv hx]
    apply key
    split <;> omega
  · rw [subtract_realloc_sptr_eq W H base n s pad asz x c hW hv]
    apply key
    split <;> omega

theorem consuming_realloc_failure_atomic_witness :
    (∃ r H', realloc_sptr 8 demoHeap (4096 + 17) 5 ⟨0, fun _ => 170⟩ = some (r, H') ∧
      (r = 0 → H' = demoHeap ∧ ValidBlock 8 H' 4096 2 1 17 19)) ∧
    (∃ r H', add_realloc_sptr 8 demoHeap (4096 + 17) 5 ⟨0, fun _ => 170⟩ = some (r, H') ∧
      (r = 0 → H' = demoHeap ∧ ValidBlock 8 H' 4096 2 1 17 19)) ∧
    (∃ r H', subtract_realloc_sptr 8 demoHeap (4096 + 17) 5 ⟨0, fun _ => 170⟩
        = some (r, H') ∧
      (r = 0 → H' = demoHeap ∧ ValidBlock 8 H' 4096 2 1 17 19)) :=
  consuming_realloc_failure_atomic 8 demoHeap 4096 2 1 17 19 5 ⟨0, fun _ => 170⟩ (by decide)
    (by decide) (by decide)


/-- C9 (grow_by is reallocate at the saturated sum).  On a live block of `n` items,
`add_realloc_sptr` with `additional_items` has the same result and leaves the same heap as
`realloc_sptr` at `n + additional_items` when that sum fits in `size_t`, and at `SIZE_MAX`
otherwise.  When the item size is at least `1` it returns, it succeeds exactly when
`(n + additional_items) * s + pad` fits and the host succeeds, and on success the length is
`n + additional_items`, the item size is kept and the `n * s` payload bytes are kept. -/
theorem add_realloc_sptr_saturated (W : Nat) (H : Heap) (base n s pad asz add : Nat)
    (c : HostChoice) (hW : 0 < W) (hv : ValidBlock W H base n s pad asz)
    (hadd : add < sizeRange W) :
    add_realloc_sptr W H (base + pad) add c =
      realloc_sptr W H (base + pad)
        (if n + add < sizeRange W then n + add else sizeRange W - 1) c ∧
    (1 ≤ s → ∃ r H', add_realloc_sptr W H (base + pad) add c = some (r, H') ∧
      (r ≠ 0 ↔ (n + add) * s + pad < sizeRange W ∧ c.addr ≠ 0) ∧
      (r ≠ 0 → sptr_length W H' r = some (n + add) ∧ sptr_item_size W H' r = some s ∧
        ∀ i < n * s, H'.mem (r + i) = H.mem (base + pad + i))) := by
  have heq := add_realloc_sptr_eq W H base n s pad asz add c hW hv hadd
  refine ⟨heq, fun h1 => ?_⟩
  have hpos := sizeRange_pos W
  have hp : 2 * W + 1 ≤ pad := hv.2.1
  rw [heq]
  by_cases hsum : n + add < sizeRange W
  · rw [if_pos hsum]
    obtain ⟨r, H', hres, hiff, -, hok⟩ :=
      realloc_sptr_cases W H base n s pad asz (n + add) c hW hv hsum
    refine ⟨r, H', hres, hiff, fun hr => ?_⟩
    obtain ⟨e, hv', hpay⟩ := hok hr
    subst e
    refine ⟨valid_length W H' _ _ _ _ _ hW hv', valid_item_size W H' _ _ _ _ _ hW hv', ?_⟩
    intro i hi
    apply hpay
    rw [Nat.min_eq_left (Nat.le_add_right n add)]
    exact hi
  · rw [if_neg hsum]
    obtain ⟨r, H', hres, hiff, -, -⟩ :=
      realloc_sptr_cases W H base n s pad asz (sizeRange W - 1) c hW hv (by omega)
    have hbig : sizeRange W - 1 ≤ (sizeRange W - 1) * s := Nat.le_mul_of_pos_right _ h1
    have hbig2 : n + add ≤ (n + add) * s := Nat.le_mul_of_pos_right _ h1
    have hr0 : r = 0 := by
      by_contra hr
      have := (hiff.1 hr).1
      omega
    refine ⟨r, H', hres, ⟨fun hr => absurd hr0 hr, fun h => ?_⟩, fun hr => absurd hr0 hr⟩
    have := h.1
    omega

theorem add_realloc_sptr_saturated_witness :
    add_realloc_sptr 8 demoHeap (4096 + 17) 1 ⟨8192, fun _ => 170⟩ =
      realloc_sptr 8 demoHeap (4096 + 17)
        (if 2 + 1 < sizeRange 8 then 2 + 1 else sizeRange 8 - 1) ⟨8192, fun _ => 170⟩ ∧
    ((1 : Nat) ≤ 1 → ∃ r H',
      add_realloc_sptr 8 demoHeap (4096 + 17) 1 ⟨8192, fun _ => 170⟩ = some (r, H') ∧
      (r ≠ 0 ↔ (2 + 1) * 1 + 17 < sizeRange 8 ∧ (8192 : Nat) ≠ 0) ∧
      (r ≠ 0 → sptr_length 8 H' r = some (2 + 1) ∧ sptr_item_size 8 H' r = some 1 ∧
        ∀ i < 2 * 1, H'.mem (r + i) = demoHeap.mem (4096 + 17 + i))) :=
  add_realloc_sptr_saturated 8 demoHeap 4096 2 1 17 19 1 ⟨8192, fun _ => 170⟩ (by decide)
    (by decide) (by decide)

/-- C10 (shrink saturation).  On a live block of `n` items, `subtract_realloc_sptr` with
`removed_items ≤ n` is `realloc_sptr` at `n - removed_items`; with `removed_items > n` it is
`realloc_sptr` at `0`, it succeeds exactly when the host succeeds, and the resulting block has
length `0` and the same item size. -/
theorem subtract_realloc_sptr_saturated (W : Nat) (H : Heap) (base n s pad asz rem : Nat)
    (c : HostChoice) (hW : 0 < W) (hv : ValidBlock W H base n s pad asz) :
    (rem ≤ n → subtract_realloc_sptr W H (base + pad) rem c =
      realloc_sptr W H (base + pad) (n - rem) c) ∧
    (n < rem →
      subtract_realloc_sptr W H (base + pad) rem c = realloc_sptr W H (base + pad) 0 c ∧
      ∃ r H', subtract_realloc_sptr W H (base + pad) rem c = some (r, H') ∧
        (r ≠ 0 ↔ c.addr ≠ 0) ∧
        (r ≠ 0 → sptr_length W H' r = some 0 ∧ sptr_item_size W H' r = some s)) := by
  have heq := subtract_realloc_sptr_eq W H base n s pad asz rem c hW hv
  have hpos := sizeRange_pos W
  refine ⟨fun hle => ?_, fun hlt => ?_⟩
  · rw [heq, if_pos hle]
  · rw [heq, if_neg (by omega)]
    refine ⟨rfl, ?_⟩
    obtain ⟨r, H', hres, hiff, -, hok⟩ :=
      realloc_sptr_cases W H base n s pad asz 0 c hW hv hpos
    have hpad : pad < sizeRange W := by
      have h1 := hv.2.2.2.1
      have h2 := hv.2.2.2.2.1
      omega
    refine ⟨r, H', hres, ⟨fun hr => (hiff.1 hr).2, fun hc => hiff.2 ⟨by omega, hc⟩⟩,
      fun hr => ?_⟩
    obtain ⟨e, hv', -⟩ := hok hr
    subst e
    exact ⟨valid_length W H' _ _ _ _ _ hW hv', valid_item_size W H' _ _ _ _ _ hW hv'⟩

theorem subtract_realloc_sptr_saturated_witness :
    (subtract_realloc_sptr 8 demoHeap (4096 + 17) 1 ⟨8192, fun _ => 170⟩ =
      realloc_sptr 8 demoHeap (4096 + 17) (2 - 1) ⟨8192, fun _ => 170⟩) ∧
    (subtract_realloc_sptr 8 demoHeap (4096 + 17) 5 ⟨8192, fun _ => 170⟩ =
        realloc_sptr 8 demoHeap (4096 + 17) 0 ⟨8192, fun _ => 170⟩ ∧
      ∃ r H', subtract_realloc_sptr 8 demoHeap (4096 + 17) 5 ⟨8192, fun _ => 170⟩
          = some (r, H') ∧
        (r ≠ 0 ↔ (8192 : Nat) ≠ 0) ∧
        (r ≠ 0 → sptr_length 8 H' r = some 0 ∧ sptr_item_size 8 H' r = some 1)) :=
  ⟨(subtract_realloc_sptr_saturated 8 demoHeap 4096 2 1 17 19 1 ⟨8192, fun _ => 170⟩
      (by decide) (by decide)).1 (by decide),
   (subtract_realloc_sptr_saturated 8 demoHeap 4096 2 1 17 19 5 ⟨8192, fun _ => 170⟩
      (by decide) (by decide)).2 (by decide)⟩

/-- C5 (adopt), evaluated at a failing input.  A raw block of 2 bytes `7, 9` is adopted as
2 items of 1 byte; the host either moves it to address 8192 or grows it in place, fresh bytes
`170`.  The handle reports length 2 and item size 1, but `memmove(sptr + pad, sptr, size)`
copied `size = 1` bytes only: the payload is `7, 170`, not `7, 9`. -/
theorem make_sptr_payload_lost :
    (make_sptr 8 rawHeap 4096 2 1 ⟨8192, fun _ => 170⟩).map
        (fun r => (r.1, sptr_length 8 r.2 r.1, sptr_item_size 8 r.2 r.1,
          r.2.mem r.1, r.2.mem (r.1 + 1)))
      = some (8209, some 2, some 1, 7, 170) ∧
    (make_sptr 8 rawHeap 4096 2 1 ⟨4096, fun _ => 170⟩).map
        (fun r => (r.1, sptr_length 8 r.2 r.1, sptr_item_size 8 r.2 r.1,
          r.2.mem r.1, r.2.mem (r.1 + 1)))
      = some (4113, some 2, some 1, 7, 170) ∧
    rawHeap.live 4096 = some 2 ∧ rawHeap.mem 4096 = 7 ∧ rawHeap.mem 4097 = 9 := by
  decide

/-- C6 (release_to_raw), evaluated at a failing input.  The live block of `demoHeap` has
payload `7, 9`.  `memmove(sptr, meta, size)` copies the start of the header onto the payload
instead of the payload onto the start of the allocation, so the raw block returned by `make_ptr`
starts with the header bytes `2, 0`, both when the host shrink succeeds (block moved to 8192) and
when it fails (block left at 4096). -/
theorem make_ptr_header_over_payload :
    (make_ptr 8 demoHeap 4113 ⟨8192, fun _ => 170⟩).map
        (fun r => (r.1, r.2.mem r.1, r.2.mem (r.1 + 1))) = some (8192, 2, 0) ∧
    (make_ptr 8 demoHeap 4113 ⟨0, fun _ => 170⟩).map
        (fun r => (r.1, r.2.mem r.1, r.2.mem (r.1 + 1))) = some (4096, 2, 0) ∧
    ValidBlock 8 demoHeap 4096 2 1 17 19 ∧ sptr_size 8 demoHeap 4113 = some 2 ∧
    demoHeap.mem 4113 = 7 ∧ demoHeap.mem 4114 = 9 := by
  decide


/-! ## Checked arithmetic, saturation, containment, the no-op multiplier -/

/-- C19 (checked arithmetic).  For `size_t` values `a` and `b`:
`_sptr_multiply_overflow_check` returns true exactly when the product `a * b` exceeds
`SIZE_MAX` (is at least `sizeRange W`) and otherwise stores `a * b`;
`_sptr_addition_overflow_check` returns true exactly when `a + b` exceeds `SIZE_MAX` and
otherwise stores `a + b`; `_sptr_subtraction_underflow_check` returns true exactly when `a < b`
and otherwise stores `a - b`. -/
theorem checked_helpers_exact (W a b : Nat) (ha : a < sizeRange W) (hb : b < sizeRange W) :
    ((_sptr_multiply_overflow_check W a b).1 = true ↔ sizeRange W ≤ a * b) ∧
    (a * b < sizeRange W → (_sptr_multiply_overflow_check W a b).2 = a * b) ∧
    ((_sptr_addition_overflow_check W a b).1 = true ↔ sizeRange W ≤ a + b) ∧
    (a + b < sizeRange W → (_sptr_addition_overflow_check W a b).2 = a + b) ∧
    ((_sptr_subtraction_underflow_check W a b).1 = true ↔ a < b) ∧
    (b ≤ a → (_sptr_subtraction_underflow_check W a b).2 = a - b) := by
  refine ⟨⟨fun h => ?_, mul_check_overflow W a b⟩, fun h => ?_,
    ⟨fun h => ?_, add_check_overflow W a b ha hb⟩, fun h => ?_, ?_, fun h => ?_⟩
  · by_contra hc
    rw [mul_check_ok W a b (by omega)] at h
    exact Bool.false_ne_true h
  · rw [mul_check_ok W a b h]
  · by_contra hc
    rw [add_check_ok W a b (by omega)] at h
    exact Bool.false_ne_true h
  · rw [add_check_ok W a b h]
  · simp [_sptr_subtraction_underflow_check]
  · simp only [_sptr_subtraction_underflow_check]
    have : a + sizeRange W - b = (a - b) + sizeRange W := by omega
    rw [this, Nat.add_mod_right]
    exact Nat.mod_eq_of_lt (by omega)

theorem checked_helpers_exact_witness :
    ((_sptr_multiply_overflow_check 8 (2 ^ 32) (2 ^ 32)).1 = true ↔
      sizeRange 8 ≤ 2 ^ 32 * 2 ^ 32) ∧
    (2 ^ 32 * 2 ^ 32 < sizeRange 8 →
      (_sptr_multiply_overflow_check 8 (2 ^ 32) (2 ^ 32)).2 = 2 ^ 32 * 2 ^ 32) ∧
    ((_sptr_addition_overflow_check 8 (2 ^ 32) (2 ^ 32)).1 = true ↔
      sizeRange 8 ≤ 2 ^ 32 + 2 ^ 32) ∧
    (2 ^ 32 + 2 ^ 32 < sizeRange 8 →
      (_sptr_addition_overflow_check 8 (2 ^ 32) (2 ^ 32)).2 = 2 ^ 32 + 2 ^ 32) ∧
    ((_sptr_subtraction_underflow_check 8 (2 ^ 32) (2 ^ 32)).1 = true ↔ 2 ^ 32 < 2 ^ 32) ∧
    (2 ^ 32 ≤ 2 ^ 32 → (_sptr_subtraction_underflow_check 8 (2 ^ 32) (2 ^ 32)).2
      = 2 ^ 32 - 2 ^ 32) :=
  checked_helpers_exact 8 (2 ^ 32) (2 ^ 32) (by decide) (by decide)

/-- C20 (saturated growth never succeeds).  On a live block with item size at least `1`, when
`sptr_length + additional_items` exceeds `SIZE_MAX`, `add_realloc_sptr` returns `NULL` with the
heap unchanged for every host decision, because `SIZE_MAX * item_size + pad` exceeds `SIZE_MAX`;
and the length of such a live block is never `SIZE_MAX`. -/
theorem add_realloc_sptr_saturated_fails (W : Nat) (H : Heap) (base n s pad asz add : Nat)
    (hW : 0 < W) (hv : ValidBlock W H base n s pad asz) (hs : 1 ≤ s)
    (hadd : add < sizeRange W) (hov : sizeRange W ≤ n + add) :
    (∀ c, add_realloc_sptr W H (base + pad) add c = some (0, H)) ∧
    sizeRange W ≤ (sizeRange W - 1) * s + pad ∧
    n ≠ sizeRange W - 1 := by
  have hp : 2 * W + 1 ≤ pad := hv.2.1
  have hbig : sizeRange W - 1 ≤ (sizeRange W - 1) * s := Nat.le_mul_of_pos_right _ hs
  have hn : n ≤ n * s := Nat.le_mul_of_pos_right _ hs
  have h1 := hv.2.2.2.1
  have h2 := hv.2.2.2.2.1
  refine ⟨fun c => ?_, by omega, by omega⟩
  rw [add_realloc_sptr_eq W H base n s pad asz add c hW hv hadd, if_neg (by omega)]
  exact realloc_sptr_fail W H base n s pad asz _ c hW hv (Or.inl (by omega))

theorem add_realloc_sptr_saturated_fails_witness :
    (∀ c, add_realloc_sptr 8 demoHeap (4096 + 17) (2 ^ 64 - 1) c = some (0, demoHeap)) ∧
    sizeRange 8 ≤ (sizeRange 8 - 1) * 1 + 17 ∧
    2 ≠ sizeRange 8 - 1 :=
  add_realloc_sptr_saturated_fails 8 demoHeap 4096 2 1 17 19 (2 ^ 64 - 1) (by decide)
    (by decide) (by decide) (by decide) (by decide)

/-- C16 (containment).  On a live block with handle `h = base + pad`, `n` items of `s` bytes:
`sptr_end h = h + n * s`, and `in_sptr h p` is true exactly when `h ≤ p < h + n * s`; so it is
true at every payload address and false at the one-past-end address.  For the null handle
`in_sptr NULL p` is true exactly when `p` is null. -/
theorem in_sptr_containment (W : Nat) (H : Heap) (base n s pad asz p : Nat)
    (hW : 0 < W) (hv : ValidBlock W H base n s pad asz) :
    sptr_end W H (base + pad) = some (base + pad + n * s) ∧
    in_sptr W H (base + pad) p = some (decide (base + pad ≤ p ∧ p < base + pad + n * s)) ∧
    (∀ i < n * s, in_sptr W H (base + pad) (base + pad + i) = some true) ∧
    in_sptr W H (base + pad) (base + pad + n * s) = some false ∧
    ∀ H0 : Heap, in_sptr W H0 0 p = some (decide (p = 0)) := by
  have hsz := valid_size W H base n s pad asz hW hv
  have hp : 2 * W + 1 ≤ pad := hv.2.1
  have hend : sptr_end W H (base + pad) = some (base + pad + n * s) := by
    unfold sptr_end
    rw [if_neg (by omega), hsz]
  have hin : ∀ q, in_sptr W H (base + pad) q
      = some (decide (base + pad ≤ q ∧ q < base + pad + n * s)) := by
    intro q
    unfold in_sptr
    rw [if_neg (by omega)]
    by_cases hle : base + pad ≤ q
    · rw [if_pos hle, hend]
      simp [hle]
    · rw [if_neg hle]
      simp [hle]
  refine ⟨hend, hin p, fun i hi => ?_, ?_, fun H0 => by simp [in_sptr]⟩
  · rw [hin]
    simp only [Option.some.injEq, decide_eq_true_eq]
    omega
  · rw [hin]
    simp

theorem in_sptr_containment_witness :
    sptr_end 8 demoHeap4 (4096 + 20) = some (4096 + 20 + 2 * 4) ∧
    in_sptr 8 demoHeap4 (4096 + 20) 4120
      = some (decide (4096 + 20 ≤ 4120 ∧ 4120 < 4096 + 20 + 2 * 4)) ∧
    (∀ i < 2 * 4, in_sptr 8 demoHeap4 (4096 + 20) (4096 + 20 + i) = some true) ∧
    in_sptr 8 demoHeap4 (4096 + 20) (4096 + 20 + 2 * 4) = some false ∧
    ∀ H0 : Heap, in_sptr 8 H0 0 4120 = some (decide (4120 = 0)) :=
  in_sptr_containment 8 demoHeap4 4096 2 4 20 28 4120 (by decide) (by decide)

/-- C15 (idempotent no-op).  For every handle `h`, null or not, and whatever the floating-point
arithmetic of the platform and the host would do, `sptr_multiply_allocation h 1` returns `h`
and the heap it was given: no host call is made, and length, item size and payload are
unchanged. -/
theorem sptr_multiply_allocation_one (W : Nat) (fscale : Nat → ℚ → Option Nat) (H : Heap)
    (h : Nat) (c : HostChoice) :
    sptr_multiply_allocation W fscale H h 1 c = some (h, H) := by
  unfold sptr_multiply_allocation
  by_cases h0 : h = 0
  · subst h0; simp
  · have : ¬ (h = 0 ∨ (1 : ℚ) < 0) := by
      rintro (h1 | h1)
      · exact h0 h1
      · norm_num at h1
    rw [if_neg this, if_pos rfl]

/-! ## Changing the item size -/

theorem realloc_ne_none (H : Heap) (p n old : Nat) (c : HostChoice)
    (hl : H.live p = some old) : realloc H p n c ≠ none := by
  unfold realloc
  by_cases hp : p = 0
  · rw [if_pos hp]; simp
  · rw [if_neg hp, hl]
    simp only
    split <;> simp

/-- On a live block, when the new pad is larger and the host reallocation fails, `resize_sptr`
returns the handle it was given and leaves the heap as it was. -/
theorem resize_sptr_grow_fail (W : Nat) (H : Heap) (base n s pad asz new_size new_pad : Nat)
    (c : HostChoice) (hW : 0 < W) (hv : ValidBlock W H base n s pad asz)
    (hns : new_size ≠ 0) (hpad : _sptr_get_pad W new_size = some new_pad)
    (hlt : pad < new_pad) (hc : c.addr = 0) :
    resize_sptr W H (base + pad) new_size c = some (base + pad, H) := by
  have hm := get_meta_valid W H base n s pad asz hW hv
  obtain ⟨hb, hp, hlive, hfit, hasz, hn, hs, hsent, hzero⟩ := hv
  have hpm : (base + pad - base) % sizeRange W = pad := by
    rw [Nat.add_sub_cancel_left]; exact Nat.mod_eq_of_lt (by omega)
  unfold resize_sptr
  rw [if_neg hns, if_neg (by omega), hm]
  simp only [_SPTR_SIZE_INDEX, _SPTR_LENGTH_INDEX, Nat.mul_one, Nat.mul_zero, Nat.add_zero, hs,
    hn, mul_check_ok W n s (by omega), Bool.false_eq_true, if_false, hpm, hpad, if_pos hlt]
  split
  · rw [realloc_live_fail H base _ asz c hb hlive hc]
    simp
  · rfl

/-- On a live block `resize_sptr` always returns, and the pointer it returns is null exactly
when `new_size` is `0`. -/
theorem resize_sptr_live_null_iff (W : Nat) (H : Heap) (base n s pad asz new_size : Nat)
    (c : HostChoice) (hW : 0 < W) (hv : ValidBlock W H base n s pad asz)
    (hsz : new_size < sizeRange W) :
    ∃ r H', resize_sptr W H (base + pad) new_size c = some (r, H') ∧
      (r = 0 ↔ new_size = 0) := by
  have hm := get_meta_valid W H base n s pad asz hW hv
  obtain ⟨hb, hp, hlive, hfit, hasz, hn, hs, hsent, hzero⟩ := hv
  have hpm : (base + pad - base) % sizeRange W = pad := by
    rw [Nat.add_sub_cancel_left]; exact Nat.mod_eq_of_lt (by omega)
  by_cases hns : new_size = 0
  · subst hns
    refine ⟨0, { H with live := fun b => if b = base then none else H.live b }, ?_, by simp⟩
    unfold resize_sptr free_sptr free
    rw [if_pos rfl, hm]
    simp only [if_neg hb, hlive]
  · have fin : ∀ (r : Nat) (H' : Heap), r ≠ 0 →
        ∃ r0 H0, some (r, H') = some (r0, H0) ∧ (r0 = 0 ↔ new_size = 0) :=
      fun r H' hr => ⟨r, H', rfl, fun h => absurd h hr, fun h => absurd h hns⟩
    obtain ⟨new_pad, hpad⟩ : ∃ q, _sptr_get_pad W new_size = some q :=
      ⟨_, (get_pad_eq W new_size hW (by omega) hsz).1⟩
    unfold resize_sptr
    rw [if_neg hns, if_neg (by omega), hm]
    simp only [_SPTR_SIZE_INDEX, _SPTR_LENGTH_INDEX, Nat.mul_one, Nat.mul_zero, Nat.add_zero,
      hs, hn, mul_check_ok W n s (by omega), Bool.false_eq_true, if_false, hpm, hpad]
    by_cases hlt : pad < new_pad
    · rw [if_pos hlt]
      split
      · split
        · rename_i heq
          exact absurd heq (realloc_ne_none _ _ _ _ _ hlive)
        · split
          · rename_i ha
            exact fin _ _ (by omega)
          · exact fin _ _ (by omega)
      · exact fin _ _ (by omega)
    · rw [if_neg hlt]
      by_cases hgt : pad > new_pad
      · rw [if_pos hgt]
        split
        · split
          · rename_i heq
            exact absurd heq (realloc_ne_none _ _ _ _ _ hlive)
          · split
            · exact fin _ _ (by omega)
            · exact fin _ _ (by omega)
        · exact fin _ _ (by omega)
      · rw [if_neg hgt]
        exact fin _ _ (by omega)

/-- For the null handle and a nonzero `new_size`, `resize_sptr` is `malloc_sptr 0 new_size`,
which returns null exactly when the host allocation fails. -/
theorem resize_sptr_null_handle (W : Nat) (H : Heap) (new_size : Nat) (c : HostChoice)
    (hW : 0 < W) (hns : new_size ≠ 0) (hsz : new_size < sizeRange W) :
    resize_sptr W H 0 new_size c = malloc_sptr W H 0 new_size c ∧
    ∃ r H', resize_sptr W H 0 new_size c = some (r, H') ∧ (r = 0 ↔ c.addr = 0) := by
  have e : resize_sptr W H 0 new_size c = malloc_sptr W H 0 new_size c := by
    unfold resize_sptr
    rw [if_neg hns, if_pos rfl]
  refine ⟨e, ?_⟩
  rw [e]
  obtain ⟨pad, hpad⟩ : ∃ q, _sptr_get_pad W new_size = some q :=
    ⟨_, (get_pad_eq W new_size hW (by omega) hsz).1⟩
  obtain ⟨-, hp, hplt⟩ := get_pad_ge W new_size pad hW hsz hpad
  by_cases hc : c.addr = 0
  · exact ⟨0, H, malloc_sptr_host_fail W H 0 new_size pad c hpad hc, by simp [hc]⟩
  · obtain ⟨H', hres, -⟩ := malloc_sptr_valid W H 0 new_size pad c hW hsz hpad (by omega) hc
    exact ⟨_, H', hres, ⟨fun h => by omega, fun h => absurd h hc⟩⟩

/-- C13 (change_item_size, failed growth of the pad), as amended.  On a live block, for a
nonzero `new_size` whose pad is larger than the current pad, if the host reallocation fails then
`resize_sptr` returns the handle it was given, which is not null, and the heap is the heap
before: the block is still live and has not been deallocated. -/
theorem resize_sptr_grow_pad_host_failure (W : Nat) (H : Heap)
    (base n s pad asz new_size new_pad : Nat) (c : HostChoice) (hW : 0 < W)
    (hv : ValidBlock W H base n s pad asz) (hns : new_size ≠ 0)
    (hpad : _sptr_get_pad W new_size = some new_pad) (hlt : pad < new_pad)
    (hc : c.addr = 0) :
    resize_sptr W H (base + pad) new_size c = some (base + pad, H) ∧
    base + pad ≠ 0 ∧ H.live base = some asz ∧ ValidBlock W H base n s pad asz := by
  have hp : 2 * W + 1 ≤ pad := hv.2.1
  exact ⟨resize_sptr_grow_fail W H base n s pad asz new_size new_pad c hW hv hns hpad hlt hc,
    by omega, hv.2.2.1, hv⟩

theorem resize_sptr_grow_pad_host_failure_witness :
    resize_sptr 8 demoHeap (4096 + 17) 2 ⟨0, fun _ => 170⟩ = some (4096 + 17, demoHeap) ∧
    4096 + 17 ≠ 0 ∧ demoHeap.live 4096 = some 19 ∧ ValidBlock 8 demoHeap 4096 2 1 17 19 :=
  resize_sptr_grow_pad_host_failure 8 demoHeap 4096 2 1 17 19 2 18 ⟨0, fun _ => 170⟩
    (by decide) (by decide) (by decide) (by decide) (by decide) rfl

/-- C13, the claim as stated fails.  The live block of `demoHeap` has item size 1 and pad 17;
the new item size 2 has pad 18; the host reallocation fails.  `resize_sptr` returns the handle
4113, not `NULL`, and the allocation at 4096 is still live. -/
theorem resize_sptr_grow_pad_host_failure_counterexample :
    ValidBlock 8 demoHeap 4096 2 1 17 19 ∧ _sptr_get_pad 8 2 = some 18 ∧
    (resize_sptr 8 demoHeap 4113 2 ⟨0, fun _ => 170⟩).map (fun r => (r.1, r.2.live 4096))
      = some (4113, some 19) ∧
    ¬ ∃ H', resize_sptr 8 demoHeap 4113 2 ⟨0, fun _ => 170⟩ = some (0, H') ∧
      H'.live 4096 = none := by
  refine ⟨by decide, by decide, by decide, ?_⟩
  rintro ⟨H', h, -⟩
  have h2 : (resize_sptr 8 demoHeap 4113 2 ⟨0, fun _ => 170⟩).map (fun r => r.1) = some 4113 := by
    decide
  rw [h] at h2
  simp at h2

/-- C14 (`resize_sptr` returns `NULL` iff `new_size == 0`), as amended.  On a live block
`resize_sptr` always returns and its result is null exactly when `new_size` is `0`, for every
host decision.  For the null handle, `resize_sptr NULL 0` is null and, for a nonzero `new_size`,
`resize_sptr NULL new_size` is `malloc_sptr 0 new_size`, which is null exactly when the host
allocation fails.  If the attempt to allocate more bytes for a larger pad fails, the handle that
was passed in is returned. -/
theorem resize_sptr_null_iff_new_size_zero (W : Nat) (H : Heap)
    (base n s pad asz new_size : Nat) (c : HostChoice) (hW : 0 < W)
    (hv : ValidBlock W H base n s pad asz) (hsz : new_size < sizeRange W) :
    (∃ r H', resize_sptr W H (base + pad) new_size c = some (r, H') ∧
      (r = 0 ↔ new_size = 0)) ∧
    (∀ H0 : Heap, resize_sptr W H0 0 0 c = some (0, H0)) ∧
    (new_size ≠ 0 → ∀ H0 : Heap,
      resize_sptr W H0 0 new_size c = malloc_sptr W H0 0 new_size c ∧
      ∃ r H', resize_sptr W H0 0 new_size c = some (r, H') ∧ (r = 0 ↔ c.addr = 0)) ∧
    (∀ new_pad, new_size ≠ 0 → _sptr_get_pad W new_size = some new_pad → pad < new_pad →
      c.addr = 0 → resize_sptr W H (base + pad) new_size c = some (base + pad, H)) := by
  refine ⟨resize_sptr_live_null_iff W H base n s pad asz new_size c hW hv hsz, ?_, ?_, ?_⟩
  · intro H0
    simp [resize_sptr, free_sptr, _get_sptr_meta, free]
  · intro hns H0
    exact resize_sptr_null_handle W H0 new_size c hW hns hsz
  · intro new_pad hns hpad hlt hc
    exact resize_sptr_grow_fail W H base n s pad asz new_size new_pad c hW hv hns hpad hlt hc

theorem resize_sptr_null_iff_new_size_zero_witness :
    (∃ r H', resize_sptr 8 demoHeap (4096 + 17) 2 ⟨0, fun _ => 170⟩ = some (r, H') ∧
      (r = 0 ↔ 2 = 0)) ∧
    (∀ H0 : Heap, resize_sptr 8 H0 0 0 ⟨0, fun _ => 170⟩ = some (0, H0)) ∧
    (2 ≠ 0 → ∀ H0 : Heap,
      resize_sptr 8 H0 0 2 ⟨0, fun _ => 170⟩ = malloc_sptr 8 H0 0 2 ⟨0, fun _ => 170⟩ ∧
      ∃ r H', resize_sptr 8 H0 0 2 ⟨0, fun _ => 170⟩ = some (r, H') ∧
        (r = 0 ↔ (0 : Nat) = 0)) ∧
    (∀ new_pad, 2 ≠ 0 → _sptr_get_pad 8 2 = some new_pad → 17 < new_pad →
      (0 : Nat) = 0 →
      resize_sptr 8 demoHeap (4096 + 17) 2 ⟨0, fun _ => 170⟩ = some (4096 + 17, demoHeap)) :=
  resize_sptr_null_iff_new_size_zero 8 demoHeap 4096 2 1 17 19 2 ⟨0, fun _ => 170⟩
    (by decide) (by decide) (by decide)

/-- C14, the claim as stated fails.  For the null handle and `new_size = 4`, when the host
allocation fails `resize_sptr` returns `NULL` although `new_size` is not `0`. -/
theorem resize_sptr_null_iff_new_size_zero_counterexample :
    resize_sptr 8 emptyHeap 0 4 ⟨0, fun _ => 170⟩ = some (0, emptyHeap) ∧
    ¬ ((0 : Nat) = 0 ↔ (4 : Nat) = 0) :=
  ⟨rfl, by decide⟩

/-- C11 (change_item_size re-describes the block), evaluated at failing inputs.  No path of
`resize_sptr` stores the new item size or the new length.  The live block of `demoHeap` has 2
items of 1 byte (total size 2).  Resized to item size 2 with the host moving the block to 8192,
the returned handle 8210 does not report item size 2 and length 1: the backward scan stops on an
old payload byte and both queries read garbage.  Resized to item size 17 (same pad, the handle
is returned as it is) it still reports item size 1 and length 2.  The block of `demoHeap4`
(2 items of 4 bytes) resized to item size 1 returns 8193, which reports item size 0. -/
theorem resize_sptr_header_not_rewritten :
    ValidBlock 8 demoHeap 4096 2 1 17 19 ∧ sptr_size 8 demoHeap 4113 = some 2 ∧
    (resize_sptr 8 demoHeap 4113 2 ⟨8192, fun _ => 170⟩).map
        (fun r => (r.1, sptr_item_size 8 r.2 r.1, sptr_length 8 r.2 r.1))
      = some (8210, some 72057594037927936, some 72057594049071360) ∧
    (resize_sptr 8 demoHeap 4113 17 ⟨8192, fun _ => 170⟩).map
        (fun r => (r.1, sptr_item_size 8 r.2 r.1, sptr_length 8 r.2 r.1))
      = some (4113, some 1, some 2) ∧
    ValidBlock 8 demoHeap4 4096 2 4 20 28 ∧ sptr_size 8 demoHeap4 4116 = some 8 ∧
    (resize_sptr 8 demoHeap4 4116 1 ⟨8192, fun _ => 170⟩).map
        (fun r => (r.1, sptr_item_size 8 r.2 r.1, sptr_length 8 r.2 r.1))
      = some (8193, some 0, some 0) := by
  decide

/-- C12 (change_item_size keeps the payload bytes), evaluated at failing inputs.  With a larger
new pad (`demoHeap`, payload `7, 9`, item size 1 to 2) the handle 8210 returned after a
successful host reallocation holds `9, 170`: the payload was not moved up by the pad difference.
With a smaller new pad (`demoHeap4`, payload `11 .. 18`, item size 4 to 1) the payload is moved
to offset 17 but the handle returned is `new_sptr + new_size = 8193`, inside the header, when
the host succeeds, and `sptr + new_pad = 4133`, past the end of the allocation, when it
fails. -/
theorem resize_sptr_payload_misplaced :
    (List.range 2).map (fun i => demoHeap.mem (4113 + i)) = [7, 9] ∧
    (resize_sptr 8 demoHeap 4113 2 ⟨8192, fun _ => 170⟩).map
        (fun r => (r.1, (List.range 2).map (fun i => r.2.mem (r.1 + i))))
      = some (8210, [9, 170]) ∧
    (List.range 8).map (fun i => demoHeap4.mem (4116 + i)) = [11, 12, 13, 14, 15, 16, 17, 18] ∧
    (resize_sptr 8 demoHeap4 4116 1 ⟨8192, fun _ => 170⟩).map
        (fun r => (r.1, (List.range 8).map (fun i => r.2.mem (r.1 + i))))
      = some (8193, [0, 0, 0, 0, 0, 0, 0, 4]) ∧
    (resize_sptr 8 demoHeap4 4116 1 ⟨0, fun _ => 170⟩).map
        (fun r => (r.1, (List.range 8).map (fun i => r.2.mem (r.1 + i))))
      = some (4133, [0, 0, 0, 0, 0, 0, 0, 0]) := by
  decide

/-! ## Invariants I1 and I2 -/

/-- The backward scan depends only on the bytes from the sentinel up to the payload. -/
theorem get_meta_pad_invariant (W : Nat) (H : Heap) (base pad : Nat) (hW : 0 < W)
    (hi : PadInvariant W H base pad) : _get_sptr_meta W H (base + pad) = some base := by
  obtain ⟨hp, hsent, hzero⟩ := hi
  unfold _get_sptr_meta
  rw [if_neg (by omega)]
  have e : base + pad = (base + 2 * W) + 1 + (pad - (2 * W + 1)) := by omega
  have hscan : scanBack H.mem (base + pad) = some (base + 2 * W) := by
    rw [e]
    apply scanBack_pad
    · rw [hsent]; decide
    · intro i hi
      have := hzero (2 * W + 1 + i) (by omega) (by omega)
      have e2 : base + 2 * W + 1 + i = base + (2 * W + 1 + i) := by omega
      rw [e2]; exact this
  rw [hscan, min_pad_eq W hW]
  simp only
  rw [if_neg (by omega)]
  congr 1
  omega

theorem valid_metaLocated (W : Nat) (H : Heap) (base n s pad asz : Nat) (hW : 0 < W)
    (hv : ValidBlock W H base n s pad asz) : MetaLocated W H (base + pad) pad := by
  obtain ⟨hb, hp, hlive, hfit, hasz, hn, hs, hsent, hzero⟩ := hv
  refine ⟨base, asz, rfl, hlive, by omega, ⟨hp, hsent, hzero⟩, ?_⟩
  intro H2 h2
  apply get_meta_pad_invariant W H2 base pad hW
  refine ⟨hp, ?_, ?_⟩
  · rw [h2 _ (by omega) (by omega)]; exact hsent
  · intro i hi h2w
    rw [h2 _ (by omega) (by omega)]; exact hzero i hi h2w

/-- Host `realloc` of `NULL` or of a live block, when the host succeeds. -/
theorem realloc_ok (H : Heap) (p n : Nat) (c : HostChoice)
    (hptr : p = 0 ∨ (H.live p).isSome = true) (hc : c.addr ≠ 0) :
    ∃ H1, realloc H p n c = some (c.addr, H1) ∧ H1.live c.addr = some n := by
  by_cases hp : p = 0
  · unfold realloc malloc
    rw [if_pos hp, if_neg hc]
    exact ⟨_, rfl, by simp⟩
  · have hl : (H.live p).isSome = true := by
      rcases hptr with h | h
      · exact absurd h hp
      · exact h
    obtain ⟨old, hold⟩ := Option.isSome_iff_exists.1 hl
    obtain ⟨H1, hr, hl1, -⟩ := realloc_live H p n old c hp hold hc
    exact ⟨H1, hr, hl1⟩

/-- Host `realloc` of `NULL` or of a live block, when the host fails. -/
theorem realloc_fail (H : Heap) (p n : Nat) (c : HostChoice)
    (hptr : p = 0 ∨ (H.live p).isSome = true) (hc : c.addr = 0) :
    realloc H p n c = some (0, H) := by
  by_cases hp : p = 0
  · unfold realloc malloc
    rw [if_pos hp, if_pos hc]
  · have hl : (H.live p).isSome = true := by
      rcases hptr with h | h
      · exact absurd h hp
      · exact h
    obtain ⟨old, hold⟩ := Option.isSome_iff_exists.1 hl
    exact realloc_live_fail H p n old c hp hold hc

theorem make_sptr_valid (W : Nat) (H : Heap) (ptr nitems size pad : Nat) (c : HostChoice)
    (hW : 0 < W) (hsz : size < sizeRange W) (hpad : _sptr_get_pad W size = some pad)
    (hptr : ptr = 0 ∨ (H.live ptr).isSome = true)
    (hfit : nitems * size + pad < sizeRange W) (hc : c.addr ≠ 0) :
    ∃ H', make_sptr W H ptr nitems size c = some (c.addr + pad, H') ∧
      ValidBlock W H' c.addr nitems size pad (nitems * size + pad) := by
  obtain ⟨h1, hp, -⟩ := get_pad_ge W size pad hW hsz hpad
  have hn : nitems < sizeRange W := by
    have : nitems ≤ nitems * size := Nat.le_mul_of_pos_right _ h1
    omega
  obtain ⟨H1, hr, hl1⟩ := realloc_ok H ptr (nitems * size + pad) c hptr hc
  unfold make_sptr
  rw [hpad]
  simp only [mul_check_ok W nitems size (by omega), add_check_ok W (nitems * size) pad hfit,
    hr, if_neg hc, Bool.false_eq_true, if_false, _SPTR_LENGTH_INDEX, _SPTR_SIZE_INDEX,
    Nat.mul_zero, Nat.add_zero, Nat.mul_one, min_pad_eq W hW, Nat.add_sub_cancel]
  obtain ⟨a1, a2, a3, a4, -⟩ := header_mem W
    (memmove H1.mem (c.addr + pad) c.addr size) c.addr nitems size pad hp hn hsz
  exact ⟨_, rfl, hc, hp, hl1, le_refl _, hfit, a1, a2, a3, a4⟩

theorem make_sptr_fail (W : Nat) (H : Heap) (ptr nitems size pad : Nat) (c : HostChoice)
    (hpad : _sptr_get_pad W size = some pad) (hp : pad < sizeRange W)
    (hptr : ptr = 0 ∨ (H.live ptr).isSome = true)
    (hf : sizeRange W ≤ nitems * size + pad ∨ c.addr = 0) :
    make_sptr W H ptr nitems size c = some (0, H) := by
  unfold make_sptr
  rw [hpad]
  simp only
  by_cases hm : nitems * size < sizeRange W
  · rw [mul_check_ok W nitems size hm]
    simp only [Bool.false_eq_true, if_false]
    by_cases hadd : nitems * size + pad < sizeRange W
    · have hc : c.addr = 0 := by omega
      rw [add_check_ok W (nitems * size) pad hadd]
      simp only [Bool.false_eq_true, if_false, realloc_fail H ptr _ c hptr hc, if_true]
    · rw [if_pos (add_check_overflow W (nitems * size) pad hm hp (by omega))]
  · rw [if_pos (mul_check_overflow W nitems size (by omega))]

/-- A non-null result of `malloc_sptr`, `calloc_sptr` or `make_sptr` is the handle of a live
block with the requested count and item size. -/
theorem creation_success (W : Nat) (H : Heap) (ptr nitems size pad : Nat) (c : HostChoice)
    (r : Nat) (H' : Heap)
    (hW : 0 < W) (hsz : size < sizeRange W) (hpad : _sptr_get_pad W size = some pad)
    (hptr : ptr = 0 ∨ (H.live ptr).isSome = true)
    (hres : malloc_sptr W H nitems size c = some (r, H') ∨
      calloc_sptr W H nitems size c = some (r, H') ∨
      make_sptr W H ptr nitems size c = some (r, H'))
    (hr : r ≠ 0) :
    r = c.addr + pad ∧ ValidBlock W H' c.addr nitems size pad (nitems * size + pad) := by
  obtain ⟨-, -, hp⟩ := get_pad_ge W size pad hW hsz hpad
  by_cases hok : nitems * size + pad < sizeRange W ∧ c.addr ≠ 0
  · obtain ⟨hfit, hc⟩ := hok
    rcases hres with h | h | h
    · obtain ⟨H1, e, hv, -⟩ := malloc_sptr_valid W H nitems size pad c hW hsz hpad hfit hc
      rw [e] at h
      injection h with h
      injection h with h1 h2
      subst h1 h2
      exact ⟨rfl, hv⟩
    · obtain ⟨H1, e, hv, -⟩ := calloc_sptr_valid W H nitems size pad c hW hsz hpad hfit hc
      rw [e] at h
      injection h with h
      injection h with h1 h2
      subst h1 h2
      exact ⟨rfl, hv⟩
    · obtain ⟨H1, e, hv⟩ := make_sptr_valid W H ptr nitems size pad c hW hsz hpad hptr hfit hc
      rw [e] at h
      injection h with h
      injection h with h1 h2
      subst h1 h2
      exact ⟨rfl, hv⟩
  · have hf : sizeRange W ≤ nitems * size + pad ∨ c.addr = 0 := by
      by_cases h1 : nitems * size + pad < sizeRange W
      · right
        by_contra h2
        exact hok ⟨h1, h2⟩
      · left; omega
    exfalso
    rcases hres with h | h | h
    · have e : malloc_sptr W H nitems size c = some (0, H) := by
        rcases hf with hf | hf
        · exact malloc_sptr_overflow W H nitems size pad c hpad hp hf
        · exact malloc_sptr_host_fail W H nitems size pad c hpad hf
      rw [e] at h
      injection h with h
      injection h with h1 h2
      exact hr h1.symm
    · have e : calloc_sptr W H nitems size c = some (0, H) := by
        rcases hf with hf | hf
        · exact calloc_sptr_overflow W H nitems size pad c hpad hp hf
        · exact calloc_sptr_host_fail W H nitems size pad c hpad hf
      rw [e] at h
      injection h with h
      injection h with h1 h2
      exact hr h1.symm
    · rw [make_sptr_fail W H ptr nitems size pad c hpad hp hptr hf] at h
      injection h with h
      injection h with h1 h2
      exact hr h1.symm

/-- A non-null result of one consuming call on a live block is the handle of a live block
with the same item size and the same pad. -/
theorem runCall_valid (W : Nat) (H : Heap) (base n s pad asz : Nat) (call : Call)
    (r : Nat) (H' : Heap) (hW : 0 < W) (hv : ValidBlock W H base n s pad asz)
    (harg : call.arg < sizeRange W) (hres : runCall W H (base + pad) call = some (r, H'))
    (hr : r ≠ 0) :
    ∃ base' n' asz', r = base' + pad ∧ ValidBlock W H' base' n' s pad asz' := by
  have hnlt := (valid_count_lt W H base n s pad asz hv).1
  have hpos := sizeRange_pos W
  have key : ∀ k c, k < sizeRange W → realloc_sptr W H (base + pad) k c = some (r, H') →
      ∃ base' n' asz', r = base' + pad ∧ ValidBlock W H' base' n' s pad asz' := by
    intro k c hk h
    obtain ⟨r1, H1, e, -, -, hok⟩ := realloc_sptr_cases W H base n s pad asz k c hW hv hk
    rw [e] at h
    injection h with h
    injection h with h1 h2
    subst h1 h2
    obtain ⟨e1, hv1, -⟩ := hok hr
    exact ⟨_, _, _, e1, hv1⟩
  cases call with
  | realloc k c => exact key k c harg hres
  | add k c =>
    simp only [runCall] at hres
    simp only [Call.arg] at harg
    rw [add_realloc_sptr_eq W H base n s pad asz k c hW hv harg] at hres
    refine key _ c ?_ hres
    split <;> omega
  | subtract k c =>
    simp only [runCall] at hres
    rw [subtract_realloc_sptr_eq W H base n s pad asz k c hW hv] at hres
    refine key _ c ?_ hres
    split <;> omega

theorem runCalls_valid (W : Nat) (s pad : Nat) (hW : 0 < W) (calls : List Call) :
    ∀ (st : Nat × Heap) (h : Nat) (Hend : Heap),
      (∃ base n asz, st.1 = base + pad ∧ ValidBlock W st.2 base n s pad asz) →
      (∀ call ∈ calls, call.arg < sizeRange W) →
      runCalls W st calls = some (h, Hend) →
      ∃ base n asz, h = base + pad ∧ ValidBlock W Hend base n s pad asz := by
  induction calls with
  | nil =>
    intro st h Hend hst _ hrun
    simp only [runCalls] at hrun
    injection hrun with hrun
    subst hrun
    exact hst
  | cons call rest ih =>
    intro st h Hend hst hargs hrun
    obtain ⟨base, n, asz, e, hv⟩ := hst
    simp only [runCalls] at hrun
    rw [e] at hrun
    cases hc : runCall W st.2 (base + pad) call with
    | none => rw [hc] at hrun; simp at hrun
    | some st1 =>
      rw [hc] at hrun
      simp only at hrun
      by_cases h0 : st1.1 = 0
      · rw [if_pos h0] at hrun; simp at hrun
      · rw [if_neg h0] at hrun
        have hv1 := runCall_valid W st.2 base n s pad asz call st1.1 st1.2 hW hv
          (hargs call (List.mem_cons_self _ _)) hc h0
        exact ih st1 h Hend hv1 (fun c hcm => hargs c (List.mem_cons_of_mem _ hcm)) hrun

/-- Host `realloc` of a non-null pointer that is not a live allocation is undefined. -/
theorem realloc_dead (H : Heap) (p n : Nat) (c : HostChoice) (hp : p ≠ 0)
    (hl : H.live p = none) : realloc H p n c = none := by
  unfold realloc
  rw [if_neg hp, hl]

/-- A non-null result of `make_sptr` is the handle of a live block with the requested count and
item size, whatever pointer was passed in: when the pointer is neither null nor a live
allocation `make_sptr` returns no non-null handle. -/
theorem make_sptr_success (W : Nat) (H : Heap) (ptr nitems size pad : Nat) (c : HostChoice)
    (r : Nat) (H' : Heap)
    (hW : 0 < W) (hsz : size < sizeRange W) (hpad : _sptr_get_pad W size = some pad)
    (hres : make_sptr W H ptr nitems size c = some (r, H')) (hr : r ≠ 0) :
    r = c.addr + pad ∧ ValidBlock W H' c.addr nitems size pad (nitems * size + pad) := by
  by_cases hptr : ptr = 0 ∨ (H.live ptr).isSome = true
  · exact creation_success W H ptr nitems size pad c r H' hW hsz hpad hptr
      (Or.inr (Or.inr hres)) hr
  · exfalso
    have hp : ptr ≠ 0 := fun h => hptr (Or.inl h)
    have hl : H.live ptr = none := by
      cases hlp : H.live ptr with
      | none => rfl
      | some old => exact absurd (Or.inr (by rw [hlp]; rfl)) hptr
    unfold make_sptr at hres
    rw [hpad] at hres
    simp only [realloc_dead H ptr _ c hp hl] at hres
    split at hres
    · injection hres with hres
      injection hres with h1 h2
      exact hr h1.symm
    · split at hres
      · injection hres with hres
        injection hres with h1 h2
        exact hr h1.symm
      · exact Option.noConfusion hres

/-- C17 (invariant I1 and metadata location).  On every heap, every non-null handle returned
by `malloc_sptr`, `calloc_sptr` or `make_sptr` lies `pad(item_size)` bytes into a live allocation
whose byte at offset `2 * sizeof(size_t)` is `1` and whose bytes after it up to the payload are
`0`; every non-null handle returned by `realloc_sptr`, `add_realloc_sptr` or
`subtract_realloc_sptr` on a live block lies the pad of that block into such an allocation; and
so does the handle at the end of any sequence of successful consuming calls that starts from a
created block.  In each case `_get_sptr_meta` of the handle returns the allocation start,
`handle - pad`, on every heap with the same bytes from the sentinel up to the payload, whatever
the header words and the payload hold. -/
theorem handles_satisfy_I1 (W : Nat) (hW : 0 < W) :
    (∀ (H : Heap) (nitems size pad : Nat) (c : HostChoice) (r : Nat) (H' : Heap),
      size < sizeRange W → _sptr_get_pad W size = some pad →
      malloc_sptr W H nitems size c = some (r, H') → r ≠ 0 → MetaLocated W H' r pad) ∧
    (∀ (H : Heap) (nitems size pad : Nat) (c : HostChoice) (r : Nat) (H' : Heap),
      size < sizeRange W → _sptr_get_pad W size = some pad →
      calloc_sptr W H nitems size c = some (r, H') → r ≠ 0 → MetaLocated W H' r pad) ∧
    (∀ (H : Heap) (ptr nitems size pad : Nat) (c : HostChoice) (r : Nat) (H' : Heap),
      size < sizeRange W → _sptr_get_pad W size = some pad →
      make_sptr W H ptr nitems size c = some (r, H') → r ≠ 0 → MetaLocated W H' r pad) ∧
    (∀ (H : Heap) (base n s pad asz k : Nat) (c : HostChoice) (r : Nat) (H' : Heap),
      ValidBlock W H base n s pad asz → k < sizeRange W →
      (realloc_sptr W H (base + pad) k c = some (r, H') → r ≠ 0 → MetaLocated W H' r pad) ∧
      (add_realloc_sptr W H (base + pad) k c = some (r, H') → r ≠ 0 →
        MetaLocated W H' r pad) ∧
      (subtract_realloc_sptr W H (base + pad) k c = some (r, H') → r ≠ 0 →
        MetaLocated W H' r pad)) ∧
    (∀ (H : Heap) (ptr nitems size pad : Nat) (c : HostChoice) (r0 : Nat) (H0 : Heap)
      (calls : List Call) (h : Nat) (Hend : Heap),
      size < sizeRange W → _sptr_get_pad W size = some pad →
      (malloc_sptr W H nitems size c = some (r0, H0) ∨
        calloc_sptr W H nitems size c = some (r0, H0) ∨
        make_sptr W H ptr nitems size c = some (r0, H0)) → r0 ≠ 0 →
      (∀ call ∈ calls, call.arg < sizeRange W) →
      runCalls W (r0, H0) calls = some (h, Hend) → MetaLocated W Hend h pad) := by
  have hcreate : ∀ (H : Heap) (ptr nitems size pad : Nat) (c : HostChoice) (r : Nat)
      (H' : Heap), size < sizeRange W → _sptr_get_pad W size = some pad →
      (malloc_sptr W H nitems size c = some (r, H') ∨
        calloc_sptr W H nitems size c = some (r, H') ∨
        make_sptr W H ptr nitems size c = some (r, H')) → r ≠ 0 →
      r = c.addr + pad ∧ ValidBlock W H' c.addr nitems size pad (nitems * size + pad) := by
    intro H ptr nitems size pad c r H' hsz hpad hres hr
    rcases hres with h | h | h
    · exact creation_success W H 0 nitems size pad c r H' hW hsz hpad (Or.inl rfl)
        (Or.inl h) hr
    · exact creation_success W H 0 nitems size pad c r H' hW hsz hpad (Or.inl rfl)
        (Or.inr (Or.inl h)) hr
    · exact make_sptr_success W H ptr nitems size pad c r H' hW hsz hpad h hr
  have hloc : ∀ (H : Heap) (ptr nitems size pad : Nat) (c : HostChoice) (r : Nat)
      (H' : Heap), size < sizeRange W → _sptr_get_pad W size = some pad →
      (malloc_sptr W H nitems size c = some (r, H') ∨
        calloc_sptr W H nitems size c = some (r, H') ∨
        make_sptr W H ptr nitems size c = some (r, H')) → r ≠ 0 →
      MetaLocated W H' r pad := by
    intro H ptr nitems size pad c r H' hsz hpad hres hr
    obtain ⟨e, hv'⟩ := hcreate H ptr nitems size pad c r H' hsz hpad hres hr
    rw [e]
    exact valid_metaLocated W H' _ _ _ _ _ hW hv'
  have hcall : ∀ (H : Heap) (base n s pad asz : Nat) (call : Call) (r : Nat) (H' : Heap),
      ValidBlock W H base n s pad asz → call.arg < sizeRange W →
      runCall W H (base + pad) call = some (r, H') → r ≠ 0 → MetaLocated W H' r pad := by
    intro H base n s pad asz call r H' hv harg hres hr
    obtain ⟨b', n', a', e, hv'⟩ :=
      runCall_valid W H base n s pad asz call r H' hW hv harg hres hr
    rw [e]
    exact valid_metaLocated W H' _ _ _ _ _ hW hv'
  refine ⟨?_, ?_, ?_, ?_, ?_⟩
  · intro H nitems size pad c r H' hsz hpad h hr
    exact hloc H 0 nitems size pad c r H' hsz hpad (Or.inl h) hr
  · intro H nitems size pad c r H' hsz hpad h hr
    exact hloc H 0 nitems size pad c r H' hsz hpad (Or.inr (Or.inl h)) hr
  · intro H ptr nitems size pad c r H' hsz hpad h hr
    exact hloc H ptr nitems size pad c r H' hsz hpad (Or.inr (Or.inr h)) hr
  · intro H base n s pad asz k c r H' hv hk
    exact ⟨fun h hr => hcall H base n s pad asz (Call.realloc k c) r H' hv hk h hr,
      fun h hr => hcall H base n s pad asz (Call.add k c) r H' hv hk h hr,
      fun h hr => hcall H base n s pad asz (Call.subtract k c) r H' hv hk h hr⟩
  · intro H ptr nitems size pad c r0 H0 calls h Hend hsz hpad hres hr0 hargs hrun
    obtain ⟨e, hv0⟩ := hcreate H ptr nitems size pad c r0 H0 hsz hpad hres hr0
    obtain ⟨base, n, asz, e1, hv⟩ := runCalls_valid W size pad hW calls (r0, H0) h Hend
      ⟨_, _, _, e, hv0⟩ hargs hrun
    rw [e1]
    exact valid_metaLocated W Hend _ _ _ _ _ hW hv

theorem handles_satisfy_I1_witness :
    MetaLocated 8 ((malloc_sptr 8 emptyHeap 3 4 ⟨8192, fun i => 170 + i⟩).getD
      (0, emptyHeap)).2 (8192 + 20) 20 ∧
    MetaLocated 8 ((calloc_sptr 8 emptyHeap 3 4 ⟨8192, fun i => 170 + i⟩).getD
      (0, emptyHeap)).2 (8192 + 20) 20 ∧
    MetaLocated 8 ((make_sptr 8 rawHeap 4096 2 1 ⟨8192, fun i => 170 + i⟩).getD
      (0, emptyHeap)).2 (8192 + 17) 17 ∧
    MetaLocated 8 ((add_realloc_sptr 8 demoHeap (4096 + 17) 1 ⟨8192, fun i => 170 + i⟩).getD
      (0, emptyHeap)).2 (8192 + 17) 17 ∧
    MetaLocated 8 ((runCalls 8 ((malloc_sptr 8 emptyHeap 2 4 ⟨4096, fun _ => 170⟩).getD
        (0, emptyHeap))
      [Call.add 3 ⟨8192, fun _ => 85⟩, Call.subtract 1 ⟨4096, fun _ => 0⟩]).getD
      (0, emptyHeap)).2 (4096 + 20) 20 :=
  ⟨(handles_satisfy_I1 8 (by decide)).1 emptyHeap 3 4 20 ⟨8192, fun i => 170 + i⟩ _ _
      (by decide) (by decide) rfl (by decide),
   (handles_satisfy_I1 8 (by decide)).2.1 emptyHeap 3 4 20 ⟨8192, fun i => 170 + i⟩ _ _
      (by decide) (by decide) rfl (by decide),
   (handles_satisfy_I1 8 (by decide)).2.2.1 rawHeap 4096 2 1 17 ⟨8192, fun i => 170 + i⟩ _ _
      (by decide) (by decide) rfl (by decide),
   ((handles_satisfy_I1 8 (by decide)).2.2.2.1 demoHeap 4096 2 1 17 19 1
      ⟨8192, fun i => 170 + i⟩ _ _ (by decide) (by decide)).2.1 rfl (by decide),
   (handles_satisfy_I1 8 (by decide)).2.2.2.2 emptyHeap 0 2 4 20 ⟨4096, fun _ => 170⟩
      (4096 + 20) _ [Call.add 3 ⟨8192, fun _ => 85⟩, Call.subtract 1 ⟨4096, fun _ => 0⟩]
      (4096 + 20) _ (by decide) (by decide) (Or.inl rfl) (by decide) (by decide) rfl⟩

/-- C18 (invariant I2).  A block created by a successful `malloc_sptr`, `calloc_sptr` or
`make_sptr` and then passed through any sequence of successful `realloc_sptr`,
`add_realloc_sptr` and `subtract_realloc_sptr` calls has a stored count `n` and the item size it
was created with such that `n * item_size + pad` fits in `size_t`; the overflow check of
`sptr_size` is false and `sptr_size` returns exactly `n * item_size`. -/
theorem stored_size_never_overflows (W : Nat) (H : Heap) (ptr nitems size pad : Nat)
    (c : HostChoice) (calls : List Call) (r0 : Nat) (H0 : Heap) (h : Nat) (Hend : Heap)
    (hW : 0 < W) (hsz : size < sizeRange W) (hpad : _sptr_get_pad W size = some pad)
    (hptr : ptr = 0 ∨ (H.live ptr).isSome = true)
    (hcreate : malloc_sptr W H nitems size c = some (r0, H0) ∨
      calloc_sptr W H nitems size c = some (r0, H0) ∨
      make_sptr W H ptr nitems size c = some (r0, H0))
    (hr0 : r0 ≠ 0) (hargs : ∀ call ∈ calls, call.arg < sizeRange W)
    (hrun : runCalls W (r0, H0) calls = some (h, Hend)) :
    ∃ n, sptr_length W Hend h = some n ∧ sptr_item_size W Hend h = some size ∧
      n * size < sizeRange W ∧ n * size + pad < sizeRange W ∧
      (_sptr_multiply_overflow_check W n size).1 = false ∧
      sptr_size W Hend h = some (n * size) := by
  obtain ⟨e, hv0⟩ := creation_success W H ptr nitems size pad c r0 H0 hW hsz hpad hptr hcreate hr0
  obtain ⟨base, n, asz, e1, hv⟩ := runCalls_valid W size pad hW calls (r0, H0) h Hend
    ⟨_, _, _, e, hv0⟩ hargs hrun
  subst e1
  have h1 := hv.2.2.2.1
  have h2 := hv.2.2.2.2.1
  refine ⟨n, valid_length W Hend _ _ _ _ _ hW hv, valid_item_size W Hend _ _ _ _ _ hW hv,
    by omega, by omega, ?_, valid_size W Hend _ _ _ _ _ hW hv⟩
  rw [mul_check_ok W n size (by omega)]

theorem stored_size_never_overflows_witness :
    ∃ n, sptr_length 8 ((runCalls 8 ((malloc_sptr 8 emptyHeap 2 4 ⟨4096, fun _ => 170⟩).getD
          (0, emptyHeap))
        [Call.add 3 ⟨8192, fun _ => 85⟩, Call.subtract 1 ⟨4096, fun _ => 0⟩,
          Call.realloc 7 ⟨4096, fun _ => 1⟩]).getD (0, emptyHeap)).2 (4096 + 20) = some n ∧
      sptr_item_size 8 ((runCalls 8 ((malloc_sptr 8 emptyHeap 2 4 ⟨4096, fun _ => 170⟩).getD
          (0, emptyHeap))
        [Call.add 3 ⟨8192, fun _ => 85⟩, Call.subtract 1 ⟨4096, fun _ => 0⟩,
          Call.realloc 7 ⟨4096, fun _ => 1⟩]).getD (0, emptyHeap)).2 (4096 + 20) = some 4 ∧
      n * 4 < sizeRange 8 ∧ n * 4 + 20 < sizeRange 8 ∧
      (_sptr_multiply_overflow_check 8 n 4).1 = false ∧
      sptr_size 8 ((runCalls 8 ((malloc_sptr 8 emptyHeap 2 4 ⟨4096, fun _ => 170⟩).getD
          (0, emptyHeap))
        [Call.add 3 ⟨8192, fun _ => 85⟩, Call.subtract 1 ⟨4096, fun _ => 0⟩,
          Call.realloc 7 ⟨4096, fun _ => 1⟩]).getD (0, emptyHeap)).2 (4096 + 20)
        = some (n * 4) :=
  stored_size_never_overflows 8 emptyHeap 0 2 4 20 ⟨4096, fun _ => 170⟩
    [Call.add 3 ⟨8192, fun _ => 85⟩, Call.subtract 1 ⟨4096, fun _ => 0⟩,
      Call.realloc 7 ⟨4096, fun _ => 1⟩] (4096 + 20) _ (4096 + 20) _
    (by decide) (by decide) (by decide) (by decide) (Or.inl rfl) (by decide)
    (by decide) rfl

end Sptr
